import Mathlib

/-!
# LED sequencer (`linked_leds.cpp`): embedding and verification

The button reader, the press classifier, the circular linked sequence and the
mode controller of `linked_leds.cpp` are embedded as executable Lean functions.

Modelling conventions
* `uint64_t` clock values are natural numbers; a difference `a - b` of two of
  them is `sub64 a b`, the subtraction modulo `2^64`.
* `int` values are integers; the conversions between `int` and `uint32_t`
  (both happen around `current_index`) are `toUInt32` and `toInt32`.
* `std::shared_ptr<Node>` is `Option Nat`: `none` is `nullptr`, `some a` is the
  address of a node in the arena of nodes the owning `LinkedSequence` has
  allocated with `make_shared` (address = position in the arena, allocation
  appends).
* Dereferencing a null `head` and indexing `OUTPUTS` out of range are
  undefined in C++, they are the two values of `Fault`.
* Reads of the pin and of the clock are parameters of the function that
  performs them.
-/

namespace LinkedLeds

/-! ## Machine arithmetic -/

/-- Difference of two `uint64_t` values, as C++ computes it (modulo `2^64`). -/
def sub64 (a b : Nat) : Nat := (a + 2 ^ 64 - b % 2 ^ 64) % 2 ^ 64

/-- Conversion `int → uint32_t` (the assignment `current_index = get_data()`). -/
def toUInt32 (v : Int) : Nat := (v % 2 ^ 32).toNat

/-- Conversion `uint32_t → int` (the argument of `add_move(current_index)`). -/
def toInt32 (n : Nat) : Int := if n % 2 ^ 32 < 2 ^ 31 then (n % 2 ^ 32 : Nat) else ((n % 2 ^ 32 : Nat) : Int) - 2 ^ 32

/-- Range of the C++ type `int` (32 bits). -/
def isInt32 (v : Int) : Prop := -(2 ^ 31) ≤ v ∧ v < 2 ^ 31

def COLOUR_CHANGE_TIME : Nat := 1000

def DEBOUNCE_TIME : Nat := 35

def DOUBLE_PRESS_TIMEOUT : Nat := 300

/-- Number of entries of the global vector `OUTPUTS` (LED1, LED2, LED3). -/
def N_OUTPUTS : Nat := 3

/-- Undefined behaviours of the C++ program that the embedding makes explicit. -/
inductive Fault where
  | null_deref
  | index_out_of_range
deriving DecidableEq, Repr

deriving instance DecidableEq for Except

/-! ## ButtonState -/

/-- Embedding of `ButtonState::get_state`. `first` and `second` are the two reads of
`BUTTON_INPUT`, `now` the value of `get_time()`, `BUTTON_PRESS_TIME` the global
timestamp. Returns the result and the new value of `BUTTON_PRESS_TIME`. -/
def ButtonState.get_state (first second : Bool) (now BUTTON_PRESS_TIME : Nat) : Bool × Nat :=
  let state := first
  if DEBOUNCE_TIME < sub64 now BUTTON_PRESS_TIME then
    let current_state := second
    if state != current_state then
      (!state, now)
    else
      (state, BUTTON_PRESS_TIME)
  else
    (state, BUTTON_PRESS_TIME)

/-- One poll of the button by the main loop: the falling-edge interrupt
`update_time` may have run since the previous poll (`fall = some t` stores `t`
into `BUTTON_PRESS_TIME`), then `get_state` runs at clock value `now` and reads
the pin twice. -/
structure Poll where
  fall : Option Nat
  first : Bool
  second : Bool
  now : Nat
deriving DecidableEq, Repr

/-- The interrupt handler `update_time`: `BUTTON_PRESS_TIME = get_time()`. -/
def update_time (current_time : Nat) (_BUTTON_PRESS_TIME : Nat) : Nat := current_time

/-- Values returned by `get_state` over a sequence of polls. -/
def ButtonState.run : Nat → List Poll → List Bool
  | _, [] => []
  | bpt, p :: ps =>
    let bpt1 := match p.fall with
      | some t => update_time t bpt
      | none => bpt
    let r := ButtonState.get_state p.first p.second p.now bpt1
    r.1 :: ButtonState.run r.2 ps

/-- The debounced reader as the specification words it: it remembers the value
it returned last (`prev`) and flips it when more than `DEBOUNCE_TIME` has
elapsed since the last accepted transition and the fresh sample differs. -/
def DebouncedReader_spec (prev raw : Bool) (now last_transition_ms : Nat) : Bool × Nat :=
  if DEBOUNCE_TIME < sub64 now last_transition_ms ∧ raw ≠ prev then (!prev, now)
  else (prev, last_transition_ms)

/-- The reader of the specification over a sequence of polls, started with
the returned value `prev` and the timestamp `last_transition_ms`; the fresh
sample of a poll is the pin value read last in that call, and a falling edge
resets the timestamp as in the code. -/
def DebouncedReader_spec_run : Bool → Nat → List Poll → List Bool
  | _, _, [] => []
  | prev, last_transition_ms, p :: ps =>
    let last1 := match p.fall with
      | some t => update_time t last_transition_ms
      | none => last_transition_ms
    let r := DebouncedReader_spec prev p.second p.now last1
    r.1 :: DebouncedReader_spec_run r.1 r.2 ps

/-- Number of positions at which a list of booleans differs from its predecessor. -/
def changes : List Bool → Nat
  | a :: b :: rest => (if a = b then 0 else 1) + changes (b :: rest)
  | _ => 0

/-! ## EventManager -/

inductive EventType where
  | NO_PRESS
  | SINGLE_PRESS
  | DOUBLE_PRESS
deriving DecidableEq, Repr

structure EventManager where
  button_down_time : Nat
  button_up_time : Nat
  double_pending : Bool
  button_down : Bool
deriving DecidableEq, Repr

/-- The constructor `EventManager()` with the default member initialisers. -/
def EventManager.init : EventManager :=
  { button_down_time := 0, button_up_time := 0, double_pending := false, button_down := false }

/-- Embedding of `EventManager::get_event`. `now` is the value of `get_time()` and `state`
the value returned by `this->state_controller->get_state()`. -/
def EventManager.get_event (self : EventManager) (now : Nat) (state : Bool) :
    EventType × EventManager :=
  let result := EventType.NO_PRESS
  let r1 : EventType × EventManager :=
    if self.button_down != state then
      let self1 := { self with button_down := !self.button_down }
      if self1.button_down then
        (result, { self1 with button_down_time := now })
      else
        let self2 := { self1 with button_up_time := now }
        if self2.double_pending then
          (EventType.DOUBLE_PRESS, { self2 with double_pending := false })
        else
          (result, { self2 with double_pending := true })
    else (result, self)
  let result := r1.1
  let self3 := r1.2
  if (!self3.button_down && self3.double_pending
      && decide (DOUBLE_PRESS_TIMEOUT < sub64 now self3.button_up_time)) then
    (EventType.SINGLE_PRESS, { self3 with double_pending := false })
  else
    (result, self3)

/-- Events returned by successive `get_event` calls; each poll is the clock
value and the debounced button state of that call. -/
def EventManager.run : EventManager → List (Nat × Bool) → List EventType
  | _, [] => []
  | em, (now, state) :: rest =>
    let r := em.get_event now state
    r.1 :: EventManager.run r.2 rest

/-! ## Node and LinkedSequence -/

structure Node where
  next : Option Nat
  value : Int
deriving DecidableEq, Repr

/-- Apply `f` to the node at address `a`. -/
def updateNode : List Node → Nat → (Node → Node) → List Node
  | [], _, _ => []
  | n :: ns, 0, f => f n :: ns
  | n :: ns, a + 1, f => n :: updateNode ns a f

/-- Embedding of `Node::set_next` on the node at address `a`. -/
def set_next (nodes : List Node) (a : Nat) (next : Option Nat) : List Node :=
  updateNode nodes a (fun n => { n with next := next })

/-- Embedding of `Node::set_data` on the node at address `a`. -/
def set_data (nodes : List Node) (a : Nat) (data : Int) : List Node :=
  updateNode nodes a (fun n => { n with value := data })

structure LinkedSequence where
  nodes : List Node
  head : Option Nat
  data : List Int
deriving DecidableEq, Repr

/-- Embedding of `LinkedSequence::add_move`. -/
def LinkedSequence.add_move (self : LinkedSequence) (move : Int) : LinkedSequence :=
  { self with data := self.data ++ [move] }

/-- Body of the `for` loop of `convert` at counter `i`; the loop state is the
arena and the local pointer `current`. -/
def convert_body (data : List Int) (temp_head : Nat) (st : List Node × Nat) (i : Nat) :
    List Node × Nat :=
  let nodes := set_data st.1 st.2 (data.getD i 0)
  if i < data.length - 1 then
    let next := nodes.length
    let nodes := nodes ++ [{ next := none, value := 0 }]
    let nodes := set_next nodes st.2 (some next)
    (nodes, next)
  else
    (set_next nodes st.2 (some temp_head), st.2)

/-- Embedding of `LinkedSequence::convert`. -/
def LinkedSequence.convert (self : LinkedSequence) : LinkedSequence :=
  if self.data.isEmpty then self
  else
    let temp_head := self.nodes.length
    let nodes := self.nodes ++ [{ next := none, value := 0 }]
    let st := (List.range self.data.length).foldl (convert_body self.data temp_head)
      (nodes, temp_head)
    { nodes := st.1, head := some temp_head, data := [] }

/-- The constructor `LinkedSequence()`. -/
def LinkedSequence.empty : LinkedSequence := { nodes := [], head := none, data := [] }

/-- The constructor `LinkedSequence(std::vector<int> init_data)`. -/
def LinkedSequence.ofData (init_data : List Int) : LinkedSequence :=
  LinkedSequence.convert { nodes := [], head := none, data := init_data }

/-- Embedding of `LinkedSequence::get_data`, `this->head->get_data()`. -/
def LinkedSequence.get_data (self : LinkedSequence) : Except Fault Int :=
  match self.head with
  | none => Except.error Fault.null_deref
  | some a =>
    match self.nodes[a]? with
    | none => Except.error Fault.null_deref
    | some n => Except.ok n.value

/-- Embedding of `LinkedSequence::step`. -/
def LinkedSequence.step (self : LinkedSequence) : LinkedSequence :=
  match self.head with
  | none => self
  | some a => { self with head := (self.nodes[a]?).bind (fun n => n.next) }

/-- Calls `step()` `k` times. -/
def LinkedSequence.steps : Nat → LinkedSequence → LinkedSequence
  | 0, s => s
  | k + 1, s => LinkedSequence.steps k s.step

/-! ## StateController -/

structure StateController where
  waiting : LinkedSequence
  current : LinkedSequence
  last_change : Nat
  editing : Bool
  edited : Bool
  current_index : Nat
deriving DecidableEq, Repr

/-- State of the global vector `OUTPUTS` at start-up (three outputs, all off). -/
def OUTPUTS_init : List Bool := [false, false, false]

/-- The constructor `StateController()`. -/
def StateController.init : StateController :=
  { waiting := LinkedSequence.ofData [0, 1, 2], current := LinkedSequence.empty,
    last_change := 0, editing := false, edited := false, current_index := 0 }

/-- The indexed write `OUTPUTS[i] = 1`. -/
def writeOutput : List Bool → Nat → Except Fault (List Bool)
  | [], _ => Except.error Fault.index_out_of_range
  | _ :: xs, 0 => Except.ok (true :: xs)
  | x :: xs, i + 1 =>
    match writeOutput xs i with
    | Except.ok ys => Except.ok (x :: ys)
    | Except.error e => Except.error e

/-- Whether the pointer `sequence` of `step()` is `this->current.get()`
(otherwise it is `this->waiting.get()`):
`editing ? waiting : (edited ? current : waiting)`. -/
def StateController.uses_current (self : StateController) : Bool :=
  if self.editing then false else (if self.edited then true else false)

/-- The sequence the local pointer `sequence` of `step()` points to. -/
def StateController.sequence (self : StateController) : LinkedSequence :=
  if self.uses_current then self.current else self.waiting

/-- Write through the pointer `sequence`. -/
def StateController.set_sequence (self : StateController) (seq : LinkedSequence) :
    StateController :=
  if self.uses_current then { self with current := seq } else { self with waiting := seq }

/-- Embedding of `StateController::step`. `now` is the value of `get_time()` and `OUTPUTS`
the state of the global output vector; returns the new controller and outputs. -/
def StateController.step (self : StateController) (now : Nat) (OUTPUTS : List Bool) :
    Except Fault (StateController × List Bool) :=
  let sequence := self.sequence
  if COLOUR_CHANGE_TIME < sub64 now self.last_change then
    let outs := OUTPUTS.map (fun _ => false)
    match sequence.get_data with
    | Except.error e => Except.error e
    | Except.ok v =>
      let self1 := { self with current_index := toUInt32 v }
      let written : Except Fault (List Bool) :=
        if 0 ≤ self1.current_index ∧ self1.current_index < outs.length then
          writeOutput outs self1.current_index
        else Except.ok outs
      match written with
      | Except.error e => Except.error e
      | Except.ok outs1 =>
        let self2 := self1.set_sequence sequence.step
        Except.ok ({ self2 with last_change := now }, outs1)
  else
    Except.ok (self, OUTPUTS)

/-- Embedding of `StateController::switch_editing`. -/
def StateController.switch_editing (self : StateController) : StateController :=
  let self1 := { self with editing := !self.editing }
  if !self1.editing then
    { self1 with current := self1.current.convert, edited := true }
  else
    self1

/-- Embedding of `StateController::select`. -/
def StateController.select (self : StateController) : StateController :=
  if !self.editing then self
  else { self with current := self.current.add_move (toInt32 self.current_index) }

/-- The `switch (event)` of the main loop. -/
def dispatch (event : EventType) (sc : StateController) : StateController :=
  match event with
  | EventType.SINGLE_PRESS => sc.select
  | EventType.DOUBLE_PRESS => sc.switch_editing
  | EventType.NO_PRESS => sc

/-- One iteration of the `while (true)` loop of `main`, given the event that
`get_event()` returned and the clock value read by `step()`. -/
def main_loop_body (event : EventType) (now : Nat) (st : StateController × List Bool) :
    Except Fault (StateController × List Bool) :=
  (dispatch event st.1).step now st.2

/-- A call of one of the public methods of the controller by the main loop. -/
inductive Op where
  | double
  | single
  | tick (now : Nat)
deriving DecidableEq, Repr

/-- Effect of one call on the controller and the outputs. -/
def Op.apply (op : Op) (st : StateController × List Bool) :
    Except Fault (StateController × List Bool) :=
  match op with
  | Op.double => Except.ok (st.1.switch_editing, st.2)
  | Op.single => Except.ok (st.1.select, st.2)
  | Op.tick now => st.1.step now st.2

/-- Effect of a sequence of calls. -/
def runOps : List Op → StateController × List Bool → Except Fault (StateController × List Bool)
  | [], st => Except.ok st
  | op :: ops, st =>
    match op.apply st with
    | Except.error e => Except.error e
    | Except.ok st1 => runOps ops st1

/-- Values stored into `current_index` by successive calls of `step()` at the
clock values `ts`. -/
def playValues : List Nat → StateController × List Bool → Except Fault (List Nat)
  | [], _ => Except.ok []
  | t :: ts, st =>
    match st.1.step t st.2 with
    | Except.error e => Except.error e
    | Except.ok st1 =>
      match playValues ts st1 with
      | Except.error e => Except.error e
      | Except.ok vs => Except.ok (st1.1.current_index :: vs)

/-- The `while (true)` loop of `main` over a sequence of iterations; an
iteration is the event returned by `get_event()` and the clock value read by
`step()` in that iteration. -/
def main_loop : List (EventType × Nat) → StateController × List Bool →
    Except Fault (StateController × List Bool)
  | [], st => Except.ok st
  | (event, now) :: rest, st =>
    match main_loop_body event now st with
    | Except.error e => Except.error e
    | Except.ok st1 => main_loop rest st1

/-- Values of `current_index` after each iteration of the main loop. -/
def displayed : List (EventType × Nat) → StateController × List Bool →
    Except Fault (List Nat)
  | [], _ => Except.ok []
  | (event, now) :: rest, st =>
    match main_loop_body event now st with
    | Except.error e => Except.error e
    | Except.ok st1 =>
      match displayed rest st1 with
      | Except.error e => Except.error e
      | Except.ok vs => Except.ok (st1.1.current_index :: vs)

/-- The calls of controller methods that the `switch (event)` of `main` makes. -/
def opsOf : EventType → List Op
  | EventType.SINGLE_PRESS => [Op.single]
  | EventType.DOUBLE_PRESS => [Op.double]
  | EventType.NO_PRESS => []

/-- The values that the Single events of a run deliver: for each `Op.single`
the index displayed when it arrives, that is `current_index` (as `int`) of the
state in which `select()` is called. -/
def recorded : List Op → StateController × List Bool → List Int
  | [], _ => []
  | op :: ops, st =>
    match op.apply st with
    | Except.error _ => []
    | Except.ok st1 =>
      match op with
      | Op.single => toInt32 st.1.current_index :: recorded ops st1
      | _ => recorded ops st1

end LinkedLeds

/-! # Temperature poller (`temperature_i2c.cpp`)

Only the history buffer of the main loop is embedded. A reading is the value
`temp` computed from the two bytes read over I2C; its type is a parameter,
the buffer logic does not inspect it. -/

namespace TemperatureI2c

/-- The variables the main loop reads and writes: the local vector
`temp_values`, the global flags `interrupted` and `sent_data`, and the LEDs
`myled` and `red`. -/
structure Poller (α : Type) where
  temp_values : List α
  interrupted : Bool
  sent_data : Bool
  myled : Bool
  red : Bool

/-- State on entry of the `while (1)` loop: empty history, both flags false. -/
def Poller.start {α : Type} : Poller α :=
  { temp_values := [], interrupted := false, sent_data := false, myled := false, red := false }

/-- The interrupt handler `interrupt()`. -/
def interrupt {α : Type} (s : Poller α) : Poller α := { s with interrupted := true }

/-- Body of the `while (1)` loop of `main`; `temp` is the reading the sensor
delivers in this iteration (used only when `interrupted` is false). -/
def loop_body {α : Type} (temp : α) (s : Poller α) : Poller α :=
  if !s.interrupted then
    let temp_values := s.temp_values ++ [temp]
    let temp_values := if temp_values.length > 60 then temp_values.tail else temp_values
    { s with myled := !s.myled, temp_values := temp_values }
  else
    if s.sent_data then { s with red := !s.red }
    else { s with sent_data := true }

/-- The main loop over a sequence of iterations; each iteration says whether
the sensor interrupt fired since the previous one and which reading the sensor
delivers. -/
def run {α : Type} (s : Poller α) : List (Bool × α) → Poller α
  | [] => s
  | (irq, temp) :: rest => run (loop_body temp (if irq then interrupt s else s)) rest

/-- The readings taken by the loop, in order: those of the iterations that
find `interrupted` false. -/
def taken {α : Type} (interrupted : Bool) : List (Bool × α) → List α
  | [] => []
  | (irq, temp) :: rest =>
    if interrupted || irq then taken (interrupted || irq) rest
    else temp :: taken (interrupted || irq) rest

end TemperatureI2c

namespace LinkedLeds

/-! ## Auxiliary definitions for the proofs -/

/-- Nodes `0 .. j-1` of the chain that `convert` has under construction after
`j` iterations: node `i` holds `data[i]` and points to the node allocated
right after it. -/
def openChain (base : Nat) (data : List Int) (j : Nat) : List Node :=
  (List.range j).map (fun i => { next := some (base + i + 1), value := data.getD i 0 })

/-- The closed cycle built by `convert` from `data`, allocated from address
`base` on: node `i` holds `data[i]` and points to node `(i + 1) mod length`. -/
def cycleNodes (base : Nat) (data : List Int) : List Node :=
  (List.range data.length).map
    (fun i => { next := some (base + (i + 1) % data.length), value := data.getD i 0 })

/-- State of the press classifier after a sequence of polls. -/
def EventManager.after : EventManager → List (Nat × Bool) → EventManager
  | em, [] => em
  | em, (now, state) :: rest => EventManager.after (em.get_event now state).2 rest

/-- Polls at the clock values `ts`, all with the debounced button state `state`. -/
def pollsOf (ts : List Nat) (state : Bool) : List (Nat × Bool) := ts.map (fun t => (t, state))

/-- A qualifying periodic tick: `now - last_change > COLOUR_CHANGE_TIME`. -/
def qualifies (last_change now : Nat) : Prop := COLOUR_CHANGE_TIME < sub64 now last_change

instance (a b : Nat) : Decidable (qualifies a b) :=
  inferInstanceAs (Decidable (COLOUR_CHANGE_TIME < sub64 b a))

/-- Outputs after a qualifying tick that read the value `v`: all off, except
the output at index `v` when that index is in range. -/
def litOutputs (OUTPUTS : List Bool) (v : Int) : List Bool :=
  if toUInt32 v < OUTPUTS.length then (OUTPUTS.map (fun _ => false)).set (toUInt32 v) true
  else OUTPUTS.map (fun _ => false)

/-- The values held by a sequence, in its pending list and in every node it
has allocated (the closed cycle included), are output indices. -/
def LinkedSequence.values_in_range (s : LinkedSequence) : Prop :=
  (∀ v ∈ s.data, 0 ≤ v ∧ v < 3) ∧ (∀ n ∈ s.nodes, 0 ≤ n.value ∧ n.value < 3)

/-- The invariant of the controller: `current_index` and every value held by
either sequence are output indices. -/
def StateController.indices_in_range (s : StateController) : Prop :=
  s.current_index < N_OUTPUTS ∧ s.waiting.values_in_range ∧ s.current.values_in_range

/-! ## LinkedSequence: the cycle built by `convert` -/

theorem updateNode_append_length (a : List Node) (x : Node) (b : List Node) (f : Node → Node) :
    updateNode (a ++ x :: b) a.length f = a ++ f x :: b := by
  induction a with
  | nil => simp [updateNode]
  | cons y ys ih => simp [updateNode, ih]

theorem openChain_length (base : Nat) (data : List Int) (j : Nat) :
    (openChain base data j).length = j := by
  simp [openChain]

theorem openChain_succ (base : Nat) (data : List Int) (j : Nat) :
    openChain base data (j + 1)
      = openChain base data j ++ [{ next := some (base + j + 1), value := data.getD j 0 }] := by
  simp [openChain, List.range_succ]

theorem convert_loop_upto (h0 : List Node) (data : List Int) (j : Nat) (hj : j + 1 ≤ data.length) :
    (List.range j).foldl (convert_body data h0.length) (h0 ++ [{ next := none, value := 0 }], h0.length)
      = (h0 ++ openChain h0.length data j ++ [{ next := none, value := 0 }], h0.length + j) := by
  induction j with
  | zero => simp [openChain]
  | succ j ih =>
    have hlt : j < data.length - 1 := by omega
    have hlen : (h0 ++ openChain h0.length data j).length = h0.length + j := by
      simp [openChain_length]
    rw [List.range_succ, List.foldl_append, ih (by omega)]
    simp only [List.foldl_cons, List.foldl_nil, convert_body, if_pos hlt, set_data, set_next]
    rw [← hlen, updateNode_append_length]
    rw [List.append_assoc (h0 ++ openChain h0.length data j), List.cons_append, List.nil_append,
      updateNode_append_length]
    simp [openChain_succ, openChain_length]
    omega

theorem convert_loop_full (h0 : List Node) (data : List Int) (hd : 1 ≤ data.length) :
    (List.range data.length).foldl (convert_body data h0.length)
        (h0 ++ [{ next := none, value := 0 }], h0.length)
      = (h0 ++ openChain h0.length data (data.length - 1)
            ++ [{ next := some h0.length, value := data.getD (data.length - 1) 0 }],
          h0.length + (data.length - 1)) := by
  have hm : data.length = (data.length - 1) + 1 := by omega
  have hnlt : ¬ (data.length - 1 < data.length - 1) := by omega
  have hlen : (h0 ++ openChain h0.length data (data.length - 1)).length
      = h0.length + (data.length - 1) := by
    simp [openChain_length]
  conv_lhs => rw [hm]
  rw [List.range_succ, List.foldl_append, convert_loop_upto h0 data (data.length - 1) (by omega)]
  simp only [List.foldl_cons, List.foldl_nil, convert_body, if_neg hnlt, set_data, set_next]
  rw [← hlen, updateNode_append_length, updateNode_append_length]


theorem cycleNodes_length (base : Nat) (data : List Int) :
    (cycleNodes base data).length = data.length := by
  simp [cycleNodes]

theorem chain_closed_eq (base : Nat) (data : List Int) (hd : 1 ≤ data.length) :
    openChain base data (data.length - 1)
        ++ [{ next := some base, value := data.getD (data.length - 1) 0 }]
      = cycleNodes base data := by
  have hm : data.length = (data.length - 1) + 1 := by omega
  unfold cycleNodes openChain
  conv_rhs => rw [hm, List.range_succ]
  rw [List.map_append]
  congr 1
  · apply List.map_congr_left
    intro i hi
    have hi2 : i < data.length - 1 := List.mem_range.mp hi
    have : (i + 1) % (data.length - 1 + 1) = i + 1 := Nat.mod_eq_of_lt (by omega)
    simp [this, Nat.add_assoc]
  · simp

theorem convert_eq (s : LinkedSequence) (hd : s.data ≠ []) :
    s.convert = { nodes := s.nodes ++ cycleNodes s.nodes.length s.data,
                  head := some s.nodes.length, data := [] } := by
  have hlen : 1 ≤ s.data.length := List.length_pos.mpr hd
  have hne : s.data.isEmpty = false := by
    cases h : s.data with
    | nil => exact absurd h hd
    | cons a as => rfl
  unfold LinkedSequence.convert
  rw [hne]
  simp only [Bool.false_eq_true, if_false]
  rw [convert_loop_full s.nodes s.data hlen, List.append_assoc, chain_closed_eq _ _ hlen]

theorem cycle_lookup (h0 : List Node) (data : List Int) (i : Nat) (hi : i < data.length) :
    (h0 ++ cycleNodes h0.length data)[h0.length + i]?
      = some { next := some (h0.length + (i + 1) % data.length), value := data.getD i 0 } := by
  rw [List.getElem?_append_right (by omega)]
  simp [cycleNodes, List.getElem?_range hi]

theorem steps_cycle (h0 : List Node) (data d : List Int) (k : Nat) :
    ∀ p, p < data.length →
      LinkedSequence.steps k { nodes := h0 ++ cycleNodes h0.length data, head := some (h0.length + p), data := d }
        = { nodes := h0 ++ cycleNodes h0.length data,
            head := some (h0.length + (p + k) % data.length), data := d } := by
  induction k with
  | zero =>
    intro p hp
    simp [LinkedSequence.steps, Nat.mod_eq_of_lt hp]
  | succ k ih =>
    intro p hp
    have hpos : 0 < data.length := by omega
    have hstep : LinkedSequence.step
        { nodes := h0 ++ cycleNodes h0.length data, head := some (h0.length + p), data := d }
        = { nodes := h0 ++ cycleNodes h0.length data,
            head := some (h0.length + (p + 1) % data.length), data := d } := by
      simp [LinkedSequence.step, cycle_lookup h0 data p hp]
    rw [LinkedSequence.steps, hstep, ih _ (Nat.mod_lt _ hpos)]
    have : ((p + 1) % data.length + k) % data.length = (p + (k + 1)) % data.length := by
      rw [Nat.add_mod, Nat.mod_mod, ← Nat.add_mod]
      congr 1
      omega
    rw [this]

theorem get_data_cycle (h0 : List Node) (data d : List Int) (p : Nat) (hp : p < data.length) :
    LinkedSequence.get_data
        { nodes := h0 ++ cycleNodes h0.length data, head := some (h0.length + p), data := d }
      = Except.ok (data.get ⟨p, hp⟩) := by
  simp [LinkedSequence.get_data, cycle_lookup h0 data p hp, List.getElem?_eq_getElem hp]

theorem foldl_add_move (l : List Int) : ∀ s : LinkedSequence,
    l.foldl LinkedSequence.add_move s = { s with data := s.data ++ l } := by
  induction l with
  | nil => intro s; simp
  | cons a as ih =>
    intro s
    rw [List.foldl_cons, ih]
    simp [LinkedSequence.add_move]

/-! ## Claims on the linked sequence -/

/-- C1: for every non-empty list `l` of integers, `add_move` of each element in
order on a sequence with an empty pending list followed by `convert` yields a
sequence whose pending list is empty, that has allocated exactly `length l` new
nodes, and for which, for every `k`, after `k` calls of `step()` the head is
node `k mod length l` of the new nodes and `get_data()` returns
`l[k mod length l]`: a cycle of `length l` nodes in insertion order whose last
node links back to the first. -/
theorem convert_yields_cycle_in_insertion_order (s : LinkedSequence) (l : List Int)
    (hs : s.data = []) (hl : l ≠ []) (k : Nat) :
    ((l.foldl LinkedSequence.add_move s).convert).data = [] ∧
    ((l.foldl LinkedSequence.add_move s).convert).nodes.length = s.nodes.length + l.length ∧
    (((l.foldl LinkedSequence.add_move s).convert).steps k).head
      = some (s.nodes.length + k % l.length) ∧
    (((l.foldl LinkedSequence.add_move s).convert).steps k).get_data
      = Except.ok (l.get ⟨k % l.length, Nat.mod_lt _ (List.length_pos.mpr hl)⟩) := by
  have hpos : 0 < l.length := List.length_pos.mpr hl
  have hfold : l.foldl LinkedSequence.add_move s = { s with data := l } := by
    rw [foldl_add_move, hs, List.nil_append]
  have hconv : (l.foldl LinkedSequence.add_move s).convert
      = { nodes := s.nodes ++ cycleNodes s.nodes.length l, head := some (s.nodes.length + 0),
          data := [] } := by
    rw [hfold, convert_eq _ hl]
    rfl
  rw [hconv, steps_cycle s.nodes l [] k 0 hpos]
  refine ⟨rfl, ?_, ?_, ?_⟩
  · simp [cycleNodes_length]
  · simp
  · rw [get_data_cycle s.nodes l [] ((0 + k) % l.length) (Nat.mod_lt _ hpos)]
    simp

/-- Witness of C1: the list `[4, 5]` added to a freshly constructed sequence,
read after three steps. -/
theorem convert_yields_cycle_in_insertion_order_witness :
    (([4, 5].foldl LinkedSequence.add_move LinkedSequence.empty).convert).data = [] ∧
    (([4, 5].foldl LinkedSequence.add_move LinkedSequence.empty).convert).nodes.length
      = LinkedSequence.empty.nodes.length + [4, 5].length ∧
    ((([4, 5].foldl LinkedSequence.add_move LinkedSequence.empty).convert).steps 3).head
      = some (LinkedSequence.empty.nodes.length + 3 % [4, 5].length) ∧
    ((([4, 5].foldl LinkedSequence.add_move LinkedSequence.empty).convert).steps 3).get_data
      = Except.ok (([4, 5] : List Int).get ⟨3 % [4, 5].length, by decide⟩) :=
  convert_yields_cycle_in_insertion_order LinkedSequence.empty [4, 5] rfl (by decide) 3

/-- C2: for every sequence closed by `convert` from a pending list of length
`N ≥ 1`, at every position of the cycle `get_data()` is defined and `N` further
calls of `step()` return it to the same value; for the sequence constructed
from `[0, 1, 2]` three steps return to the original value while one step and
two steps do not. -/
theorem steps_period_is_sequence_length (s : LinkedSequence) (hd : s.data ≠ []) (j : Nat) :
    (∃ v, (s.convert.steps j).get_data = Except.ok v ∧
      (s.convert.steps (j + s.data.length)).get_data = Except.ok v) ∧
    ((LinkedSequence.ofData [0, 1, 2]).steps 3).get_data
      = (LinkedSequence.ofData [0, 1, 2]).get_data ∧
    ((LinkedSequence.ofData [0, 1, 2]).steps 1).get_data
      ≠ (LinkedSequence.ofData [0, 1, 2]).get_data ∧
    ((LinkedSequence.ofData [0, 1, 2]).steps 2).get_data
      ≠ (LinkedSequence.ofData [0, 1, 2]).get_data := by
  have hpos : 0 < s.data.length := List.length_pos.mpr hd
  have hconv : s.convert
      = { nodes := s.nodes ++ cycleNodes s.nodes.length s.data,
          head := some (s.nodes.length + 0), data := [] } := by
    rw [convert_eq _ hd]
    rfl
  refine ⟨⟨s.data.get ⟨j % s.data.length, Nat.mod_lt _ hpos⟩, ?_, ?_⟩, by decide, by decide,
    by decide⟩
  · rw [hconv, steps_cycle s.nodes s.data [] j 0 hpos,
      get_data_cycle s.nodes s.data [] ((0 + j) % s.data.length) (Nat.mod_lt _ hpos)]
    simp
  · rw [hconv, steps_cycle s.nodes s.data [] (j + s.data.length) 0 hpos,
      get_data_cycle s.nodes s.data [] ((0 + (j + s.data.length)) % s.data.length)
        (Nat.mod_lt _ hpos)]
    simp

/-- Witness of C2: the pending list `[7, 8]`, read after one step and after
three steps. -/
theorem steps_period_is_sequence_length_witness :
    (∃ v, ((LinkedSequence.mk [] none [7, 8]).convert.steps 1).get_data = Except.ok v ∧
      ((LinkedSequence.mk [] none [7, 8]).convert.steps
        (1 + (LinkedSequence.mk [] none [7, 8]).data.length)).get_data = Except.ok v) ∧
    ((LinkedSequence.ofData [0, 1, 2]).steps 3).get_data
      = (LinkedSequence.ofData [0, 1, 2]).get_data ∧
    ((LinkedSequence.ofData [0, 1, 2]).steps 1).get_data
      ≠ (LinkedSequence.ofData [0, 1, 2]).get_data ∧
    ((LinkedSequence.ofData [0, 1, 2]).steps 2).get_data
      ≠ (LinkedSequence.ofData [0, 1, 2]).get_data :=
  steps_period_is_sequence_length (LinkedSequence.mk [] none [7, 8]) (by decide) 1

/-! ## StateController: the periodic tick -/

theorem writeOutput_eq_set (xs : List Bool) : ∀ i, i < xs.length →
    writeOutput xs i = Except.ok (xs.set i true) := by
  induction xs with
  | nil => intro i hi; simp at hi
  | cons x xs ih =>
    intro i hi
    cases i with
    | zero => simp [writeOutput]
    | succ i =>
      have hi2 : i < xs.length := by simpa using hi
      simp [writeOutput, ih i hi2]

theorem step_qualifying (self : StateController) (now : Nat) (OUTPUTS : List Bool) (v : Int)
    (hq : qualifies self.last_change now) (hv : self.sequence.get_data = Except.ok v) :
    self.step now OUTPUTS
      = Except.ok ({ ({ self with current_index := toUInt32 v } : StateController).set_sequence
                        self.sequence.step with last_change := now },
                   litOutputs OUTPUTS v) := by
  unfold qualifies at hq
  unfold StateController.step litOutputs
  simp only [hq, if_true, hv]
  by_cases h : toUInt32 v < OUTPUTS.length
  · have h2 : toUInt32 v < (OUTPUTS.map (fun _ => false)).length := by simpa using h
    rw [if_pos ⟨Nat.zero_le _, h2⟩, if_pos h, writeOutput_eq_set _ _ h2]
  · have h2 : ¬ (0 ≤ toUInt32 v ∧ toUInt32 v < (OUTPUTS.map (fun _ => false)).length) := by
      simpa using h
    rw [if_neg h2, if_neg h]

theorem step_fault (self : StateController) (now : Nat) (OUTPUTS : List Bool) (e : Fault)
    (hq : qualifies self.last_change now) (hv : self.sequence.get_data = Except.error e) :
    self.step now OUTPUTS = Except.error e := by
  unfold qualifies at hq
  unfold StateController.step
  simp only [hq, if_true, hv]

theorem step_not_qualifying (self : StateController) (now : Nat) (OUTPUTS : List Bool)
    (hq : ¬ qualifies self.last_change now) :
    self.step now OUTPUTS = Except.ok (self, OUTPUTS) := by
  unfold qualifies at hq
  unfold StateController.step
  simp only [hq, if_false]

theorem set_sequence_uses_current (self : StateController) (q : LinkedSequence)
    (h : self.uses_current = true) :
    self.set_sequence q = { self with current := q } := by
  simp [StateController.set_sequence, h]

theorem set_sequence_uses_waiting (self : StateController) (q : LinkedSequence)
    (h : self.uses_current = false) :
    self.set_sequence q = { self with waiting := q } := by
  simp [StateController.set_sequence, h]

/-- Playing a closed user cycle: the values stored into `current_index` by
successive qualifying ticks follow the cycle from its current position. -/
theorem play_user_cycle (h0 : List Node) (l d : List Int) :
    ∀ (ts : List Nat) (st : StateController × List Bool) (p : Nat), p < l.length →
      st.1.editing = false → st.1.edited = true →
      st.1.current = { nodes := h0 ++ cycleNodes h0.length l, head := some (h0.length + p),
                       data := d } →
      List.Chain qualifies st.1.last_change ts →
      playValues ts st
        = Except.ok ((List.range ts.length).map
            (fun i => toUInt32 (l.getD ((p + i) % l.length) 0))) := by
  intro ts
  induction ts with
  | nil => intro st p _ _ _ _ _; simp [playValues]
  | cons t ts ih =>
    intro st p hp he hed hc hch
    have hpos : 0 < l.length := by omega
    rw [List.chain_cons] at hch
    have huse : st.1.uses_current = true := by simp [StateController.uses_current, he, hed]
    have hseq : st.1.sequence = st.1.current := by simp [StateController.sequence, huse]
    have hget : st.1.sequence.get_data = Except.ok (l.get ⟨p, hp⟩) := by
      rw [hseq, hc, get_data_cycle h0 l d p hp]
    have hstep : st.1.current.step
        = { nodes := h0 ++ cycleNodes h0.length l, head := some (h0.length + (p + 1) % l.length),
            data := d } := by
      have := steps_cycle h0 l d 1 p hp
      simpa [LinkedSequence.steps, hc] using this
    have huse2 : ({ st.1 with current_index := toUInt32 (l.get ⟨p, hp⟩) } :
        StateController).uses_current = true := huse
    rw [playValues, step_qualifying st.1 t st.2 _ hch.1 hget,
      set_sequence_uses_current _ _ huse2, hseq, hstep]
    simp only
    rw [ih ({ waiting := st.1.waiting,
              current := { nodes := h0 ++ cycleNodes h0.length l,
                           head := some (h0.length + (p + 1) % l.length), data := d },
              last_change := t, editing := st.1.editing, edited := st.1.edited,
              current_index := toUInt32 (l.get ⟨p, hp⟩) }, litOutputs st.2 (l.get ⟨p, hp⟩))
      ((p + 1) % l.length) (Nat.mod_lt _ hpos) he hed rfl hch.2]
    simp only [List.length_cons, Except.ok.injEq]
    rw [List.range_succ_eq_map, List.map_cons, List.map_map]
    congr 1
    · simp [Nat.mod_eq_of_lt hp, List.getElem?_eq_getElem hp]
    · apply List.map_congr_left
      intro i _
      simp only [Function.comp]
      congr 2
      rw [Nat.add_mod, Nat.mod_mod, ← Nat.add_mod]
      congr 1
      omega

theorem runOps_nil (st : StateController × List Bool) : runOps [] st = Except.ok st := rfl

theorem runOps_double (ops : List Op) (s : StateController) (O : List Bool) :
    runOps (Op.double :: ops) (s, O) = runOps ops (s.switch_editing, O) := rfl

theorem runOps_single (ops : List Op) (s : StateController) (O : List Bool) :
    runOps (Op.single :: ops) (s, O) = runOps ops (s.select, O) := rfl

theorem runOps_tick (now : Nat) (ops : List Op) (s : StateController) (O : List Bool)
    (st1 : StateController × List Bool) (h : s.step now O = Except.ok st1) :
    runOps (Op.tick now :: ops) (s, O) = runOps ops st1 := by
  show (match s.step now O with
    | Except.error e => Except.error e
    | Except.ok st1 => runOps ops st1) = runOps ops st1
  rw [h]

theorem runOps_tick_fault (now : Nat) (ops : List Op) (s : StateController) (O : List Bool)
    (e : Fault) (h : s.step now O = Except.error e) :
    runOps (Op.tick now :: ops) (s, O) = Except.error e := by
  show (match s.step now O with
    | Except.error e => Except.error e
    | Except.ok st1 => runOps ops st1) = Except.error e
  rw [h]

/-- A qualifying tick, with every ingredient named so that each can be
evaluated on its own. -/
theorem step_tick (self : StateController) (now l : Nat) (OUTPUTS : List Bool) (v : Int)
    (X : StateController) (L : List Bool)
    (hl : self.last_change = l) (hq : qualifies l now)
    (hv : self.sequence.get_data = Except.ok v)
    (hX : ({ self with current_index := toUInt32 v } : StateController).set_sequence
            self.sequence.step = X)
    (hL : litOutputs OUTPUTS v = L) :
    self.step now OUTPUTS = Except.ok ({ X with last_change := now }, L) := by
  subst hl hX hL
  exact step_qualifying self now OUTPUTS v hq hv

/-! ## The main loop -/

theorem main_loop_nil (st : StateController × List Bool) : main_loop [] st = Except.ok st := rfl

theorem main_loop_body_eq (event : EventType) (now : Nat) (s : StateController)
    (O : List Bool) : main_loop_body event now (s, O) = (dispatch event s).step now O := rfl

theorem main_loop_cons (event : EventType) (now : Nat) (rest : List (EventType × Nat))
    (s : StateController) (O : List Bool) (st1 : StateController × List Bool)
    (h : (dispatch event s).step now O = Except.ok st1) :
    main_loop ((event, now) :: rest) (s, O) = main_loop rest st1 := by
  show (match main_loop_body event now (s, O) with
    | Except.error e => Except.error e
    | Except.ok st1 => main_loop rest st1) = main_loop rest st1
  rw [main_loop_body_eq, h]

/-- An iteration of the main loop is the calls of its `switch` followed by
`step()`. -/
theorem main_loop_body_eq_runOps (event : EventType) (now : Nat)
    (st : StateController × List Bool) :
    main_loop_body event now st = runOps (opsOf event ++ [Op.tick now]) st := by
  obtain ⟨s, O⟩ := st
  have htick : ∀ s1 : StateController, runOps [Op.tick now] (s1, O) = s1.step now O := by
    intro s1
    cases hs : s1.step now O with
    | error e => exact runOps_tick_fault now [] s1 O e hs
    | ok st1 => rw [runOps_tick now [] s1 O st1 hs, runOps_nil]
  rw [main_loop_body_eq]
  cases event with
  | NO_PRESS => exact (htick s).symm
  | SINGLE_PRESS =>
    show _ = runOps (Op.single :: [Op.tick now]) (s, O)
    rw [runOps_single, htick]
    rfl
  | DOUBLE_PRESS =>
    show _ = runOps (Op.double :: [Op.tick now]) (s, O)
    rw [runOps_double, htick]
    rfl

theorem displayed_no_press (ts : List Nat) : ∀ st : StateController × List Bool,
    displayed (ts.map (fun t => (EventType.NO_PRESS, t))) st = playValues ts st := by
  induction ts with
  | nil => intro st; rfl
  | cons t ts ih =>
    intro st
    obtain ⟨s, O⟩ := st
    show (match main_loop_body EventType.NO_PRESS t (s, O) with
      | Except.error e => Except.error e
      | Except.ok st1 =>
        match displayed (ts.map (fun t => (EventType.NO_PRESS, t))) st1 with
        | Except.error e => Except.error e
        | Except.ok vs => Except.ok (st1.1.current_index :: vs)) = playValues (t :: ts) (s, O)
    rw [main_loop_body_eq]
    show (match s.step t O with
      | Except.error e => Except.error e
      | Except.ok st1 =>
        match displayed (ts.map (fun t => (EventType.NO_PRESS, t))) st1 with
        | Except.error e => Except.error e
        | Except.ok vs => Except.ok (st1.1.current_index :: vs)) = playValues (t :: ts) (s, O)
    cases hs : s.step t O with
    | error e =>
      show _ = (match s.step t O with
        | Except.error e => Except.error e
        | Except.ok st1 =>
          match playValues ts st1 with
          | Except.error e => Except.error e
          | Except.ok vs => Except.ok (st1.1.current_index :: vs))
      rw [hs]
    | ok st1 =>
      show _ = (match s.step t O with
        | Except.error e => Except.error e
        | Except.ok st1 =>
          match playValues ts st1 with
          | Except.error e => Except.error e
          | Except.ok vs => Except.ok (st1.1.current_index :: vs))
      rw [hs]
      simp only [ih st1]

/-- A tick that does not qualify, with the timestamp named. -/
theorem step_idle (self : StateController) (now l : Nat) (OUTPUTS : List Bool)
    (hl : self.last_change = l) (hq : ¬ qualifies l now) :
    self.step now OUTPUTS = Except.ok (self, OUTPUTS) := by
  subst hl
  exact step_not_qualifying self now OUTPUTS hq

/-! ## Claims on the mode controller -/

/-- C3: the main loop is run from the initial controller over the iterations
Double, a qualifying periodic tick, Single, a qualifying periodic tick, Single,
Double, where the iterations that deliver an event happen between two periodic
ticks (their own call of `step()` does not qualify). The run does not fault;
the first tick displays index 0 and the second index 1; afterwards the
controller is in Playing-User (not editing, edited, `step()` reads the user
sequence) and the values displayed by any number of successive qualifying
periodic ticks are 0, 1, 0, 1, ... (the `i`-th is `i mod 2`), not the default
0, 1, 2. -/
theorem edit_round_trip_plays_user_cycle (a0 t1 a2 t2 a4 a5 : Nat) (ts : List Nat)
    (h0 : ¬ qualifies 0 a0) (h1 : qualifies 0 t1) (h2 : ¬ qualifies t1 a2)
    (h3 : qualifies t1 t2) (h4 : ¬ qualifies t2 a4) (h5 : ¬ qualifies t2 a5)
    (hts : List.Chain qualifies t2 ts) :
    ∃ st1 st2 st3,
      main_loop [(EventType.DOUBLE_PRESS, a0), (EventType.NO_PRESS, t1)]
        (StateController.init, OUTPUTS_init) = Except.ok st1 ∧
      st1.1.current_index = 0 ∧ st1.2 = [true, false, false] ∧
      main_loop [(EventType.SINGLE_PRESS, a2), (EventType.NO_PRESS, t2)] st1 = Except.ok st2 ∧
      st2.1.current_index = 1 ∧ st2.2 = [false, true, false] ∧
      main_loop [(EventType.SINGLE_PRESS, a4), (EventType.DOUBLE_PRESS, a5)] st2
        = Except.ok st3 ∧
      st3.1.editing = false ∧ st3.1.edited = true ∧ st3.1.sequence = st3.1.current ∧
      displayed (ts.map (fun t => (EventType.NO_PRESS, t))) st3
        = Except.ok ((List.range ts.length).map (fun i => i % 2)) := by
  have e1 : main_loop [(EventType.DOUBLE_PRESS, a0), (EventType.NO_PRESS, t1)]
        (StateController.init, OUTPUTS_init)
      = Except.ok ({ waiting := { nodes := [⟨some 1, 0⟩, ⟨some 2, 1⟩, ⟨some 0, 2⟩],
                                  head := some 1, data := [] },
                     current := LinkedSequence.empty, last_change := t1, editing := true,
                     edited := false, current_index := 0 }, [true, false, false]) := by
    rw [main_loop_cons EventType.DOUBLE_PRESS a0 _ StateController.init OUTPUTS_init _
        (step_idle (dispatch EventType.DOUBLE_PRESS StateController.init) a0 0 OUTPUTS_init
          (by decide) h0),
      main_loop_cons EventType.NO_PRESS t1 [] _ _ _
        (step_tick (dispatch EventType.NO_PRESS
            (dispatch EventType.DOUBLE_PRESS StateController.init)) t1 0 OUTPUTS_init 0
          { waiting := { nodes := [⟨some 1, 0⟩, ⟨some 2, 1⟩, ⟨some 0, 2⟩], head := some 1,
                         data := [] },
             current := LinkedSequence.empty, last_change := 0, editing := true,
            edited := false, current_index := 0 } [true, false, false]
          (by decide) h1 (by decide) (by decide) (by decide)), main_loop_nil]
  have e2 : main_loop [(EventType.SINGLE_PRESS, a2), (EventType.NO_PRESS, t2)]
        ({ waiting := { nodes := [⟨some 1, 0⟩, ⟨some 2, 1⟩, ⟨some 0, 2⟩],
                        head := some 1, data := [] },
           current := LinkedSequence.empty, last_change := t1, editing := true,
           edited := false, current_index := 0 }, [true, false, false])
      = Except.ok ({ waiting := { nodes := [⟨some 1, 0⟩, ⟨some 2, 1⟩, ⟨some 0, 2⟩],
                                  head := some 2, data := [] },
                     current := { nodes := [], head := none, data := [0] }, last_change := t2,
                     editing := true, edited := false, current_index := 1 },
                   [false, true, false]) := by
    rw [main_loop_cons EventType.SINGLE_PRESS a2 _ _ _ _
        (step_idle (dispatch EventType.SINGLE_PRESS
          ({ waiting := { nodes := [⟨some 1, 0⟩, ⟨some 2, 1⟩, ⟨some 0, 2⟩], head := some 1, data := [] },
             current := LinkedSequence.empty, last_change := t1, editing := true,
             edited := false, current_index := 0 } : StateController)) a2 t1 [true, false, false] rfl h2),
      main_loop_cons EventType.NO_PRESS t2 [] _ _ _
        (step_tick (dispatch EventType.NO_PRESS (dispatch EventType.SINGLE_PRESS
          ({ waiting := { nodes := [⟨some 1, 0⟩, ⟨some 2, 1⟩, ⟨some 0, 2⟩], head := some 1, data := [] },
             current := LinkedSequence.empty, last_change := t1, editing := true,
             edited := false, current_index := 0 } : StateController))) t2 t1 [true, false, false] 1
          { waiting := { nodes := [⟨some 1, 0⟩, ⟨some 2, 1⟩, ⟨some 0, 2⟩], head := some 2,
                         data := [] },
             current := { nodes := [], head := none, data := [0] }, last_change := t1,
            editing := true, edited := false, current_index := 1 } [false, true, false]
          rfl h3 rfl rfl (by decide)), main_loop_nil]
  have e3 : main_loop [(EventType.SINGLE_PRESS, a4), (EventType.DOUBLE_PRESS, a5)]
        ({ waiting := { nodes := [⟨some 1, 0⟩, ⟨some 2, 1⟩, ⟨some 0, 2⟩],
                        head := some 2, data := [] },
           current := { nodes := [], head := none, data := [0] }, last_change := t2,
           editing := true, edited := false, current_index := 1 },
         [false, true, false])
      = Except.ok ({ waiting := { nodes := [⟨some 1, 0⟩, ⟨some 2, 1⟩, ⟨some 0, 2⟩],
                                  head := some 2, data := [] },
                     current := { nodes := [⟨some 1, 0⟩, ⟨some 0, 1⟩], head := some 0,
                                  data := [] },
                     last_change := t2, editing := false, edited := true, current_index := 1 },
                   [false, true, false]) := by
    rw [main_loop_cons EventType.SINGLE_PRESS a4 _ _ _ _
        (step_idle (dispatch EventType.SINGLE_PRESS
          ({ waiting := { nodes := [⟨some 1, 0⟩, ⟨some 2, 1⟩, ⟨some 0, 2⟩], head := some 2, data := [] },
             current := { nodes := [], head := none, data := [0] }, last_change := t2,
             editing := true, edited := false, current_index := 1 } : StateController)) a4 t2 [false, true, false] rfl h4),
      main_loop_cons EventType.DOUBLE_PRESS a5 [] _ _ _
        (step_idle (dispatch EventType.DOUBLE_PRESS (dispatch EventType.SINGLE_PRESS
          ({ waiting := { nodes := [⟨some 1, 0⟩, ⟨some 2, 1⟩, ⟨some 0, 2⟩], head := some 2, data := [] },
             current := { nodes := [], head := none, data := [0] }, last_change := t2,
             editing := true, edited := false, current_index := 1 } : StateController))) a5 t2 [false, true, false] rfl h5),
      main_loop_nil]
    rfl
  refine ⟨_, _, _, e1, rfl, rfl, e2, rfl, rfl, e3, rfl, rfl, ?_, ?_⟩
  · rfl
  have hplay := play_user_cycle [] [0, 1] [] ts
    ({ waiting := { nodes := [⟨some 1, 0⟩, ⟨some 2, 1⟩, ⟨some 0, 2⟩],
                    head := some 2, data := [] },
       current := { nodes := [⟨some 1, 0⟩, ⟨some 0, 1⟩], head := some 0, data := [] },
       last_change := t2, editing := false, edited := true, current_index := 1 },
     [false, true, false]) 0 (by decide) rfl rfl rfl hts
  have hfg : ∀ i ∈ List.range ts.length,
      toUInt32 (([0, 1] : List Int).getD ((0 + i) % ([0, 1] : List Int).length) 0) = i % 2 := by
    intro i _
    have hi : (0 + i) % ([0, 1] : List Int).length = i % 2 := by
      rw [Nat.zero_add]
      rfl
    rw [hi]
    rcases Nat.mod_two_eq_zero_or_one i with h | h <;> rw [h] <;> decide
  rw [displayed_no_press, hplay, List.map_congr_left hfg]

/-- Witness of C3: Double in the iteration at 10, periodic tick at 1001, Single
at 1500, periodic tick at 2002, Single at 2500, Double at 2600, then playback
ticks at 3003, 4004 and 5005. -/
theorem edit_round_trip_plays_user_cycle_witness :
    ∃ st1 st2 st3,
      main_loop [(EventType.DOUBLE_PRESS, 10), (EventType.NO_PRESS, 1001)]
        (StateController.init, OUTPUTS_init) = Except.ok st1 ∧
      st1.1.current_index = 0 ∧ st1.2 = [true, false, false] ∧
      main_loop [(EventType.SINGLE_PRESS, 1500), (EventType.NO_PRESS, 2002)] st1
        = Except.ok st2 ∧
      st2.1.current_index = 1 ∧ st2.2 = [false, true, false] ∧
      main_loop [(EventType.SINGLE_PRESS, 2500), (EventType.DOUBLE_PRESS, 2600)] st2
        = Except.ok st3 ∧
      st3.1.editing = false ∧ st3.1.edited = true ∧ st3.1.sequence = st3.1.current ∧
      displayed ([3003, 4004, 5005].map (fun t => (EventType.NO_PRESS, t))) st3
        = Except.ok ((List.range [3003, 4004, 5005].length).map (fun i => i % 2)) :=
  edit_round_trip_plays_user_cycle 10 1001 1500 2002 2500 2600 [3003, 4004, 5005]
    (by decide) (by decide) (by decide) (by decide) (by decide) (by decide)
    (List.Chain.cons (by decide) (List.Chain.cons (by decide)
      (List.Chain.cons (by decide) List.Chain.nil)))

/-- C4 (the code at the failing input): after two Double events with no Single
in between, the next qualifying tick reads `get_data()` through the null
`head` of the user sequence. -/
theorem empty_edit_then_tick_dereferences_null :
    runOps [Op.double, Op.double, Op.tick 1001] (StateController.init, OUTPUTS_init)
      = Except.error Fault.null_deref := by
  decide

theorem set_sequence_current_index (self : StateController) (q : LinkedSequence) :
    (self.set_sequence q).current_index = self.current_index := by
  unfold StateController.set_sequence
  split <;> rfl

theorem set_sequence_editing (self : StateController) (q : LinkedSequence) :
    (self.set_sequence q).editing = self.editing := by
  unfold StateController.set_sequence
  split <;> rfl

theorem set_sequence_edited (self : StateController) (q : LinkedSequence) :
    (self.set_sequence q).edited = self.edited := by
  unfold StateController.set_sequence
  split <;> rfl

theorem toUInt32_lt_outputs_iff (v : Int) (hint : isInt32 v) :
    toUInt32 v < 3 ↔ (0 ≤ v ∧ v < 3) := by
  unfold isInt32 at hint
  unfold toUInt32
  norm_num at hint ⊢
  omega

theorem map_false_of_length_three (OUTPUTS : List Bool) (hO : OUTPUTS.length = N_OUTPUTS) :
    OUTPUTS.map (fun _ => false) = [false, false, false] := by
  match OUTPUTS, hO with
  | [_, _, _], _ => rfl

/-- C9: on a qualifying periodic tick on which the active sequence's
`get_data()` returns the `int` value `v`, `step()` does not fault; if `v` is
outside `[0, 3)` (negative values included, which become large unsigned values
of `current_index`) the guard is false, no indexed write into `OUTPUTS` happens
and all three outputs are off after the tick; the guard is true, and exactly
the output at index `v` is lit, only when `0 ≤ v < 3`. -/
theorem step_guards_output_index (self : StateController) (now : Nat) (OUTPUTS : List Bool)
    (v : Int) (hO : OUTPUTS.length = N_OUTPUTS) (hint : isInt32 v)
    (hq : qualifies self.last_change now) (hv : self.sequence.get_data = Except.ok v) :
    ((toUInt32 v < OUTPUTS.length) ↔ (0 ≤ v ∧ v < 3)) ∧
    ∃ self1, self1.current_index = toUInt32 v ∧
      self.step now OUTPUTS
        = Except.ok (self1, if 0 ≤ v ∧ v < 3 then [false, false, false].set v.toNat true
                            else [false, false, false]) := by
  have hiff := toUInt32_lt_outputs_iff v hint
  have hO3 : OUTPUTS.length = 3 := hO
  refine ⟨by rw [hO3]; exact hiff,
    { ({ self with current_index := toUInt32 v } : StateController).set_sequence
        self.sequence.step with last_change := now }, ?_, ?_⟩
  · exact set_sequence_current_index _ _
  · rw [step_qualifying self now OUTPUTS v hq hv]
    have hout : litOutputs OUTPUTS v
        = if 0 ≤ v ∧ v < 3 then [false, false, false].set v.toNat true
          else [false, false, false] := by
      unfold litOutputs
      rw [map_false_of_length_three OUTPUTS hO, hO3]
      by_cases hr : 0 ≤ v ∧ v < 3
      · have hidx : toUInt32 v = v.toNat := by
          unfold toUInt32
          have : v % 2 ^ 32 = v := Int.emod_eq_of_lt hr.1 (by omega)
          rw [this]
        rw [if_pos hr, if_pos (hiff.mpr hr), hidx]
      · rw [if_neg hr, if_neg (fun h => hr (hiff.mp h))]
    rw [hout]

/-- Witness of C9: the active sequence holds the value `-1`; the tick at 1001
turns all outputs off and lights none. -/
theorem step_guards_output_index_witness :
    ((toUInt32 (-1) < [true, true, false].length) ↔ (0 ≤ (-1 : Int) ∧ (-1 : Int) < 3)) ∧
    ∃ self1, self1.current_index = toUInt32 (-1) ∧
      StateController.step
          { waiting := LinkedSequence.ofData [-1], current := LinkedSequence.empty,
            last_change := 0, editing := false, edited := false, current_index := 0 }
          1001 [true, true, false]
        = Except.ok (self1, if 0 ≤ (-1 : Int) ∧ (-1 : Int) < 3
                            then [false, false, false].set (-1 : Int).toNat true
                            else [false, false, false]) :=
  step_guards_output_index
    { waiting := LinkedSequence.ofData [-1], current := LinkedSequence.empty,
      last_change := 0, editing := false, edited := false, current_index := 0 }
    1001 [true, true, false] (-1) rfl ⟨by decide, by decide⟩ (by decide) rfl

theorem step_keeps_flags (self : StateController) (now : Nat) (OUTPUTS : List Bool)
    (st : StateController × List Bool) (h : self.step now OUTPUTS = Except.ok st) :
    st.1.editing = self.editing ∧ st.1.edited = self.edited := by
  by_cases hq : qualifies self.last_change now
  · cases hv : self.sequence.get_data with
    | error e =>
      rw [step_fault self now OUTPUTS e hq hv] at h
      cases h
    | ok v =>
      rw [step_qualifying self now OUTPUTS v hq hv] at h
      injection h with h
      subst h
      by_cases hu : self.uses_current = true
      · have hu2 : ({ self with current_index := toUInt32 v } : StateController).uses_current
            = true := hu
        rw [set_sequence_uses_current _ _ hu2]
        exact ⟨rfl, rfl⟩
      · have hu2 : ({ self with current_index := toUInt32 v } : StateController).uses_current
            = false := by simpa using hu
        rw [set_sequence_uses_waiting _ _ hu2]
        exact ⟨rfl, rfl⟩
  · rw [step_not_qualifying self now OUTPUTS hq] at h
    injection h with h
    subst h
    exact ⟨rfl, rfl⟩

theorem apply_keeps_edited (op : Op) (st st1 : StateController × List Bool)
    (h : op.apply st = Except.ok st1) (he : st.1.edited = true) : st1.1.edited = true := by
  cases op with
  | double =>
    simp only [Op.apply, Except.ok.injEq] at h
    subst h
    by_cases hed : st.1.editing = true <;>
      simp [StateController.switch_editing, hed, he]
  | single =>
    simp only [Op.apply, Except.ok.injEq] at h
    subst h
    by_cases hed : st.1.editing = true <;>
      simp [StateController.select, hed, he]
  | tick now =>
    rw [(step_keeps_flags st.1 now st.2 st1 h).2, he]

theorem runOps_keeps_edited (ops : List Op) :
    ∀ st st1 : StateController × List Bool, runOps ops st = Except.ok st1 →
      st.1.edited = true → st1.1.edited = true := by
  induction ops with
  | nil =>
    intro st st1 h he
    simp only [runOps, Except.ok.injEq] at h
    subst h
    exact he
  | cons op ops ih =>
    intro st st1 h he
    rw [runOps] at h
    cases hop : op.apply st with
    | error e =>
      rw [hop] at h
      cases h
    | ok st2 =>
      rw [hop] at h
      exact ih st2 st1 h (apply_keeps_edited op st st2 hop he)

/-- C10: `switch_editing()` negates `editing`; when `editing` goes from true to
false it replaces the user sequence by its `convert()` and sets `edited`, the
default sequence being unchanged; when `editing` goes from false to true it
changes neither sequence nor `edited`; and once `edited` is true it is true
in every state reached by further Double events, Single events and ticks. -/
theorem switch_editing_toggles_and_edited_persists (self : StateController) :
    self.switch_editing.editing = (!self.editing) ∧
    (self.editing = true →
      self.switch_editing.current = self.current.convert ∧
      self.switch_editing.edited = true ∧
      self.switch_editing.waiting = self.waiting) ∧
    (self.editing = false →
      self.switch_editing.current = self.current ∧
      self.switch_editing.waiting = self.waiting ∧
      self.switch_editing.edited = self.edited) ∧
    (self.edited = true →
      ∀ (ops : List Op) (OUTPUTS : List Bool) (st : StateController × List Bool),
        runOps ops (self, OUTPUTS) = Except.ok st → st.1.edited = true) := by
  refine ⟨?_, ?_, ?_, ?_⟩
  · by_cases h : self.editing = true <;> simp [StateController.switch_editing, h]
  · intro h
    simp [StateController.switch_editing, h]
  · intro h
    simp [StateController.switch_editing, h]
  · intro he ops OUTPUTS st h
    exact runOps_keeps_edited ops (self, OUTPUTS) st h he

/-- Witness of C10: the controller after the edit Double, tick, Single,
Double has `edited` set; a further Double, Single, tick and Double run without
fault and leave it set. -/
theorem switch_editing_toggles_and_edited_persists_witness :
    ∃ st : StateController × List Bool,
      runOps [Op.double, Op.single, Op.tick 3000, Op.double]
        ({ waiting := { nodes := [⟨some 1, 0⟩, ⟨some 2, 1⟩, ⟨some 0, 2⟩], head := some 1,
                        data := [] },
           current := { nodes := [⟨some 0, 0⟩], head := some 0, data := [] },
           last_change := 1001, editing := false, edited := true, current_index := 0 },
         [true, false, false]) = Except.ok st ∧ st.1.edited = true :=
  ⟨_, rfl,
    (switch_editing_toggles_and_edited_persists
      { waiting := { nodes := [⟨some 1, 0⟩, ⟨some 2, 1⟩, ⟨some 0, 2⟩], head := some 1,
                     data := [] },
        current := { nodes := [⟨some 0, 0⟩], head := some 0, data := [] },
        last_change := 1001, editing := false, edited := true, current_index := 0 }).2.2.2
      rfl [Op.double, Op.single, Op.tick 3000, Op.double] [true, false, false] _ rfl⟩

/-! ## Claims on the button reader -/

/-- C5 (the code at the failing input): `BUTTON_PRESS_TIME` is 100; the call
at 105 samples the pin low and returns `false`; the next call, at 110 (10 ms
after the timestamp, not more than `DEBOUNCE_TIME`), samples the pin high and
returns `true`, where the debounced reader of the claim keeps the value
`false` returned by the previous call; and a call at 200 (100 ms after the
timestamp) returns `true` but leaves the timestamp at 100, where the reader of
the claim accepts the transition and sets it to 200. -/
theorem get_state_does_not_keep_previous_value :
    ButtonState.get_state false false 105 100 = (false, 100) ∧
    ¬ (DEBOUNCE_TIME < sub64 110 100) ∧
    ButtonState.get_state true true 110 100 = (true, 100) ∧
    DebouncedReader_spec false true 110 100 = (false, 100) ∧
    DEBOUNCE_TIME < sub64 200 100 ∧
    ButtonState.get_state true true 200 100 = (true, 100) ∧
    DebouncedReader_spec false true 200 100 = (true, 200) := by
  decide

/-- C6 (the code at the failing input): the raw pin flips three times, 10 ms
apart (the calls at 100, 110, 120 and 130 sample low, high, low, high; the
falling edge at 115 runs the interrupt handler). `get_state()` returns
`false, true, false, true`, three changes within one burst, two of them less
than `DEBOUNCE_TIME` after the previous change; the debounced reader of the
claim returns `false, true, true, true` on the same polls, one change. -/
theorem get_state_follows_every_flip :
    ButtonState.run 0
        [⟨none, false, false, 100⟩, ⟨none, true, true, 110⟩, ⟨some 115, false, false, 120⟩,
         ⟨none, true, true, 130⟩]
      = [false, true, false, true] ∧
    changes (ButtonState.run 0
        [⟨none, false, false, 100⟩, ⟨none, true, true, 110⟩, ⟨some 115, false, false, 120⟩,
         ⟨none, true, true, 130⟩]) = 3 ∧
    DebouncedReader_spec_run false 0
        [⟨none, false, false, 100⟩, ⟨none, true, true, 110⟩, ⟨some 115, false, false, 120⟩,
         ⟨none, true, true, 130⟩]
      = [false, true, true, true] ∧
    changes (DebouncedReader_spec_run false 0
        [⟨none, false, false, 100⟩, ⟨none, true, true, 110⟩, ⟨some 115, false, false, 120⟩,
         ⟨none, true, true, 130⟩]) = 1 := by
  decide

/-! ## Press classifier -/

theorem sub64_of_le (a b : Nat) (hab : b ≤ a) (ha : a < 2 ^ 64) : sub64 a b = a - b := by
  unfold sub64
  norm_num at ha ⊢
  omega

theorem sub64_self (a : Nat) : sub64 a a = 0 := by
  unfold sub64
  norm_num
  omega

theorem get_event_idle (dt ut now : Nat) :
    EventManager.get_event ⟨dt, ut, false, false⟩ now false
      = (EventType.NO_PRESS, ⟨dt, ut, false, false⟩) := by
  simp [EventManager.get_event]

theorem get_event_press (dt ut now : Nat) (dp : Bool) :
    EventManager.get_event ⟨dt, ut, dp, false⟩ now true
      = (EventType.NO_PRESS, ⟨now, ut, dp, true⟩) := by
  simp [EventManager.get_event]

theorem get_event_hold (dt ut now : Nat) (dp : Bool) :
    EventManager.get_event ⟨dt, ut, dp, true⟩ now true
      = (EventType.NO_PRESS, ⟨dt, ut, dp, true⟩) := by
  simp [EventManager.get_event]

theorem get_event_first_release (dt ut now : Nat) :
    EventManager.get_event ⟨dt, ut, false, true⟩ now false
      = (EventType.NO_PRESS, ⟨dt, now, true, false⟩) := by
  simp [EventManager.get_event, sub64_self, DOUBLE_PRESS_TIMEOUT]

theorem get_event_second_release (dt ut now : Nat) :
    EventManager.get_event ⟨dt, ut, true, true⟩ now false
      = (EventType.DOUBLE_PRESS, ⟨dt, now, false, false⟩) := by
  simp [EventManager.get_event]

theorem get_event_waiting (dt ut now : Nat) (h : ¬ DOUBLE_PRESS_TIMEOUT < sub64 now ut) :
    EventManager.get_event ⟨dt, ut, true, false⟩ now false
      = (EventType.NO_PRESS, ⟨dt, ut, true, false⟩) := by
  simp [EventManager.get_event, h]

theorem get_event_timeout (dt ut now : Nat) (h : DOUBLE_PRESS_TIMEOUT < sub64 now ut) :
    EventManager.get_event ⟨dt, ut, true, false⟩ now false
      = (EventType.SINGLE_PRESS, ⟨dt, ut, false, false⟩) := by
  simp [EventManager.get_event, h]

theorem run_append (a : List (Nat × Bool)) : ∀ (em : EventManager) (b : List (Nat × Bool)),
    EventManager.run em (a ++ b) = EventManager.run em a ++ EventManager.run (em.after a) b := by
  induction a with
  | nil => intro em b; rfl
  | cons x xs ih =>
    intro em b
    obtain ⟨now, state⟩ := x
    simp [EventManager.run, EventManager.after, ih]

theorem after_append (a : List (Nat × Bool)) : ∀ (em : EventManager) (b : List (Nat × Bool)),
    em.after (a ++ b) = (em.after a).after b := by
  induction a with
  | nil => intro em b; rfl
  | cons x xs ih =>
    intro em b
    obtain ⟨now, state⟩ := x
    simp [EventManager.after, ih]

theorem run_idle (dt ut : Nat) (ts : List Nat) :
    EventManager.run ⟨dt, ut, false, false⟩ (pollsOf ts false)
        = List.replicate ts.length EventType.NO_PRESS ∧
    EventManager.after ⟨dt, ut, false, false⟩ (pollsOf ts false) = ⟨dt, ut, false, false⟩ := by
  induction ts with
  | nil => exact ⟨rfl, rfl⟩
  | cons t ts ih =>
    simp only [pollsOf, List.map_cons, EventManager.run, EventManager.after, get_event_idle,
      List.length_cons, List.replicate_succ]
    exact ⟨by rw [← pollsOf, ih.1], by rw [← pollsOf, ih.2]⟩

theorem run_hold (dt ut : Nat) (dp : Bool) (ts : List Nat) :
    EventManager.run ⟨dt, ut, dp, true⟩ (pollsOf ts true)
        = List.replicate ts.length EventType.NO_PRESS ∧
    EventManager.after ⟨dt, ut, dp, true⟩ (pollsOf ts true) = ⟨dt, ut, dp, true⟩ := by
  induction ts with
  | nil => exact ⟨rfl, rfl⟩
  | cons t ts ih =>
    simp only [pollsOf, List.map_cons, EventManager.run, EventManager.after, get_event_hold,
      List.length_cons, List.replicate_succ]
    exact ⟨by rw [← pollsOf, ih.1], by rw [← pollsOf, ih.2]⟩

theorem run_press (dt ut : Nat) (dp : Bool) (t : Nat) (ts : List Nat) :
    EventManager.run ⟨dt, ut, dp, false⟩ (pollsOf (t :: ts) true)
        = List.replicate (t :: ts).length EventType.NO_PRESS ∧
    EventManager.after ⟨dt, ut, dp, false⟩ (pollsOf (t :: ts) true) = ⟨t, ut, dp, true⟩ := by
  simp only [pollsOf, List.map_cons, EventManager.run, EventManager.after, get_event_press,
    List.length_cons, List.replicate_succ]
  exact ⟨by rw [← pollsOf, (run_hold t ut dp ts).1], by rw [← pollsOf, (run_hold t ut dp ts).2]⟩

theorem run_waiting (dt ut : Nat) (ts : List Nat)
    (h : ∀ t ∈ ts, ¬ DOUBLE_PRESS_TIMEOUT < sub64 t ut) :
    EventManager.run ⟨dt, ut, true, false⟩ (pollsOf ts false)
        = List.replicate ts.length EventType.NO_PRESS ∧
    EventManager.after ⟨dt, ut, true, false⟩ (pollsOf ts false) = ⟨dt, ut, true, false⟩ := by
  induction ts with
  | nil => exact ⟨rfl, rfl⟩
  | cons t ts ih =>
    have ht := h t (List.mem_cons_self _ _)
    have ih2 := ih (fun x hx => h x (List.mem_cons_of_mem _ hx))
    simp only [pollsOf, List.map_cons, EventManager.run, EventManager.after,
      get_event_waiting dt ut t ht, List.length_cons, List.replicate_succ]
    exact ⟨by rw [← pollsOf, ih2.1], by rw [← pollsOf, ih2.2]⟩

theorem run_silence (dt ut : Nat) (ts : List Nat)
    (h : ∃ t ∈ ts, DOUBLE_PRESS_TIMEOUT < sub64 t ut) :
    (EventManager.run ⟨dt, ut, true, false⟩ (pollsOf ts false)).count EventType.SINGLE_PRESS = 1 ∧
    (EventManager.run ⟨dt, ut, true, false⟩ (pollsOf ts false)).count EventType.DOUBLE_PRESS = 0 := by
  induction ts with
  | nil => simp at h
  | cons t ts ih =>
    by_cases ht : DOUBLE_PRESS_TIMEOUT < sub64 t ut
    · simp only [pollsOf, List.map_cons, EventManager.run, get_event_timeout dt ut t ht]
      rw [← pollsOf, (run_idle dt ut ts).1]
      simp [List.count_cons, List.count_replicate]
    · have h2 : ∃ x ∈ ts, DOUBLE_PRESS_TIMEOUT < sub64 x ut := by
        obtain ⟨x, hx, hlt⟩ := h
        rcases List.mem_cons.mp hx with rfl | hx2
        · exact absurd hlt ht
        · exact ⟨x, hx2, hlt⟩
      simp only [pollsOf, List.map_cons, EventManager.run, get_event_waiting dt ut t ht]
      rw [← pollsOf]
      simpa [List.count_cons] using ih h2

theorem pollsOf_cons (t : Nat) (ts : List Nat) (b : Bool) :
    pollsOf (t :: ts) b = (t, b) :: pollsOf ts b := rfl

theorem run_cons (em : EventManager) (now : Nat) (state : Bool) (rest : List (Nat × Bool)) :
    EventManager.run em ((now, state) :: rest)
      = (em.get_event now state).1 :: EventManager.run (em.get_event now state).2 rest := rfl

theorem le_of_pairwise_after (pre post : List Nat) (x : Nat)
    (h : List.Pairwise (fun a b => a ≤ b) (pre ++ x :: post)) : ∀ y ∈ post, x ≤ y := by
  rw [List.pairwise_append] at h
  exact fun y hy => (List.pairwise_cons.mp h.2.1).1 y hy

theorem le_of_pairwise_before (pre post : List Nat) (x : Nat)
    (h : List.Pairwise (fun a b => a ≤ b) (pre ++ x :: post)) : ∀ y ∈ pre, y ≤ x := by
  rw [List.pairwise_append] at h
  exact fun y hy => h.2.2 y hy x (List.mem_cons_self _ _)

/-- C7: from the initial classifier state, polled with non-decreasing 64-bit
clock values, a debounced stream made of polls with the button up, a press
(one or more polls with the button down), a release first seen at `t1`, polls
with the button up, a second press, a release first seen at `t2` with
`t2 - t1 ≤ DOUBLE_PRESS_TIMEOUT`, and any later polls with the button up,
makes `get_event()` return `DOUBLE_PRESS` exactly once and `SINGLE_PRESS`
never. -/
theorem double_press_yields_exactly_one_double (ups0 downs1 ups1 downs2 ups2 : List Nat)
    (t1 t2 : Nat) (hd1 : downs1 ≠ []) (hd2 : downs2 ≠ [])
    (hmono : List.Pairwise (fun a b => a ≤ b)
      (ups0 ++ (downs1 ++ (t1 :: ups1 ++ (downs2 ++ t2 :: ups2)))))
    (hbound : ∀ t ∈ ups0 ++ (downs1 ++ (t1 :: ups1 ++ (downs2 ++ t2 :: ups2))), t < 2 ^ 64)
    (hgap : t2 - t1 ≤ DOUBLE_PRESS_TIMEOUT) :
    (EventManager.run EventManager.init
        (pollsOf ups0 false ++ (pollsOf downs1 true ++ (pollsOf (t1 :: ups1) false ++
          (pollsOf downs2 true ++ pollsOf (t2 :: ups2) false))))).count
      EventType.DOUBLE_PRESS = 1 ∧
    (EventManager.run EventManager.init
        (pollsOf ups0 false ++ (pollsOf downs1 true ++ (pollsOf (t1 :: ups1) false ++
          (pollsOf downs2 true ++ pollsOf (t2 :: ups2) false))))).count
      EventType.SINGLE_PRESS = 0 := by
  obtain ⟨d1, ds1, rfl⟩ := List.exists_cons_of_ne_nil hd1
  obtain ⟨d2, ds2, rfl⟩ := List.exists_cons_of_ne_nil hd2
  have hwait : ∀ t ∈ ups1, ¬ DOUBLE_PRESS_TIMEOUT < sub64 t t1 := by
    intro t ht
    have h1 : t1 ≤ t := by
      have hm : List.Pairwise (fun a b => a ≤ b)
          ((ups0 ++ (d1 :: ds1)) ++ t1 :: (ups1 ++ ((d2 :: ds2) ++ t2 :: ups2))) := by
        rw [List.append_assoc]
        exact hmono
      exact le_of_pairwise_after _ _ t1 hm t (List.mem_append_left _ ht)
    have h2 : t ≤ t2 := by
      have hm : List.Pairwise (fun a b => a ≤ b)
          ((ups0 ++ ((d1 :: ds1) ++ (t1 :: ups1 ++ (d2 :: ds2)))) ++ t2 :: ups2) := by
        simp only [List.append_assoc]
        exact hmono
      exact le_of_pairwise_before _ _ t2 hm t (by simp [ht])
    have h3 : t < 2 ^ 64 := hbound t (by simp [ht])
    rw [sub64_of_le t t1 h1 h3]
    omega
  have hinit : EventManager.init = ⟨0, 0, false, false⟩ := rfl
  rw [hinit, run_append, (run_idle 0 0 ups0).1, (run_idle 0 0 ups0).2,
    run_append, (run_press 0 0 false d1 ds1).1, (run_press 0 0 false d1 ds1).2,
    pollsOf_cons t1, List.cons_append, run_cons, get_event_first_release,
    run_append, (run_waiting d1 t1 ups1 hwait).1, (run_waiting d1 t1 ups1 hwait).2,
    run_append, (run_press d1 t1 true d2 ds2).1, (run_press d1 t1 true d2 ds2).2,
    pollsOf_cons t2, run_cons, get_event_second_release, (run_idle d2 t2 ups2).1]
  simp [List.count_append, List.count_cons, List.count_replicate]

/-- Witness of C7: press seen at 10 and 20, release at 30, press at 50,
release at 60, then the button stays up at 400 and 500. -/
theorem double_press_yields_exactly_one_double_witness :
    (EventManager.run EventManager.init
        (pollsOf [0] false ++ (pollsOf [10, 20] true ++ (pollsOf (30 :: [40]) false ++
          (pollsOf [50] true ++ pollsOf (60 :: [400, 500]) false))))).count
      EventType.DOUBLE_PRESS = 1 ∧
    (EventManager.run EventManager.init
        (pollsOf [0] false ++ (pollsOf [10, 20] true ++ (pollsOf (30 :: [40]) false ++
          (pollsOf [50] true ++ pollsOf (60 :: [400, 500]) false))))).count
      EventType.SINGLE_PRESS = 0 :=
  double_press_yields_exactly_one_double [0] [10, 20] [40] [50] [400, 500] 30 60
    (by decide) (by decide) (by decide) (by decide) (by decide)

/-- C8: from the initial classifier state, polled with non-decreasing 64-bit
clock values, a debounced stream made of polls with the button up, one press
(one or more polls with the button down), a release first seen at `t1` and
then only polls with the button up, one of which has
`now - t1 > DOUBLE_PRESS_TIMEOUT`, followed by any number of further polls
with the button up, makes `get_event()` return `SINGLE_PRESS` exactly once and
`DOUBLE_PRESS` never. -/
theorem single_press_yields_exactly_one_single (ups0 downs1 ups1 : List Nat) (t1 : Nat)
    (hd1 : downs1 ≠ [])
    (hmono : List.Pairwise (fun a b => a ≤ b) (ups0 ++ (downs1 ++ t1 :: ups1)))
    (hbound : ∀ t ∈ ups0 ++ (downs1 ++ t1 :: ups1), t < 2 ^ 64)
    (hsilence : ∃ t ∈ ups1, DOUBLE_PRESS_TIMEOUT < t - t1) :
    (EventManager.run EventManager.init
        (pollsOf ups0 false ++ (pollsOf downs1 true ++ pollsOf (t1 :: ups1) false))).count
      EventType.SINGLE_PRESS = 1 ∧
    (EventManager.run EventManager.init
        (pollsOf ups0 false ++ (pollsOf downs1 true ++ pollsOf (t1 :: ups1) false))).count
      EventType.DOUBLE_PRESS = 0 := by
  obtain ⟨d1, ds1, rfl⟩ := List.exists_cons_of_ne_nil hd1
  have hsil : ∃ t ∈ ups1, DOUBLE_PRESS_TIMEOUT < sub64 t t1 := by
    obtain ⟨t, ht, hlt⟩ := hsilence
    have h1 : t1 ≤ t := by
      have hm : List.Pairwise (fun a b => a ≤ b) ((ups0 ++ (d1 :: ds1)) ++ t1 :: ups1) := by
        rw [List.append_assoc]
        exact hmono
      exact le_of_pairwise_after _ _ t1 hm t ht
    have h3 : t < 2 ^ 64 := hbound t (by simp [ht])
    exact ⟨t, ht, by rw [sub64_of_le t t1 h1 h3]; exact hlt⟩
  have hinit : EventManager.init = ⟨0, 0, false, false⟩ := rfl
  have hs := run_silence d1 t1 ups1 hsil
  rw [hinit, run_append, (run_idle 0 0 ups0).1, (run_idle 0 0 ups0).2,
    run_append, (run_press 0 0 false d1 ds1).1, (run_press 0 0 false d1 ds1).2,
    pollsOf_cons t1, run_cons, get_event_first_release]
  simp [List.count_append, List.count_cons, List.count_replicate, hs.1, hs.2]

/-- Witness of C8: press seen at 10 and 20, release at 30, then the button
stays up at 40, 331 (301 ms after the release), 400 and 1000. -/
theorem single_press_yields_exactly_one_single_witness :
    (EventManager.run EventManager.init
        (pollsOf [0] false ++ (pollsOf [10, 20] true ++ pollsOf (30 :: [40, 331, 400, 1000]) false))).count
      EventType.SINGLE_PRESS = 1 ∧
    (EventManager.run EventManager.init
        (pollsOf [0] false ++ (pollsOf [10, 20] true ++ pollsOf (30 :: [40, 331, 400, 1000]) false))).count
      EventType.DOUBLE_PRESS = 0 :=
  single_press_yields_exactly_one_single [0] [10, 20] [40, 331, 400, 1000] 30
    (by decide) (by decide) (by decide) ⟨331, by decide, by decide⟩

/-! ## Claims C11 to C13: frame conditions of the controller and the sequence -/

theorem toUInt32_toInt32 (n : Nat) (hn : n < 2 ^ 32) : toUInt32 (toInt32 n) = n := by
  unfold toUInt32 toInt32
  norm_num at hn ⊢
  split <;> omega

theorem toInt32_of_lt (n : Nat) (hn : n < 2 ^ 31) : toInt32 n = (n : Int) := by
  unfold toInt32
  norm_num at hn ⊢
  omega

/-- C11: `select()` while `editing` is true appends exactly one element to the
pending list of the user sequence, the value of `current_index` passed as `int`
(it reads back as `current_index`, and is numerically `current_index` whenever
that is below `2^31`, in particular for every output index), and changes
nothing else: nodes and head of the user sequence, the default sequence,
`editing`, `edited`, `current_index` and `last_change` are unchanged; while
`editing` is false the whole state is unchanged. -/
theorem select_appends_current_index_only (self : StateController) :
    (self.editing = true →
      self.select.current.data = self.current.data ++ [toInt32 self.current_index] ∧
      (self.current_index < 2 ^ 32 → toUInt32 (toInt32 self.current_index) = self.current_index) ∧
      (self.current_index < 2 ^ 31 → toInt32 self.current_index = (self.current_index : Int)) ∧
      self.select.current.nodes = self.current.nodes ∧
      self.select.current.head = self.current.head ∧
      self.select.waiting = self.waiting ∧
      self.select.editing = self.editing ∧
      self.select.edited = self.edited ∧
      self.select.current_index = self.current_index ∧
      self.select.last_change = self.last_change) ∧
    (self.editing = false → self.select = self) := by
  constructor
  · intro h
    have hs : self.select
        = { self with current := self.current.add_move (toInt32 self.current_index) } := by
      unfold StateController.select
      rw [h]
      rfl
    rw [hs]
    exact ⟨rfl, toUInt32_toInt32 _, toInt32_of_lt _, rfl, rfl, rfl, rfl, rfl, rfl, rfl⟩
  · intro h
    unfold StateController.select
    rw [h]
    rfl

/-- Witness of C11: while editing with output 1 displayed, `select()` appends 1
to the pending list `[0]`. -/
theorem select_appends_current_index_only_witness :
    (StateController.select
        { waiting := LinkedSequence.ofData [0, 1, 2],
          current := { nodes := [], head := none, data := [0] },
          last_change := 2002, editing := true, edited := false, current_index := 1 }).current.data
      = [0] ++ [toInt32 1] :=
  ((select_appends_current_index_only
      { waiting := LinkedSequence.ofData [0, 1, 2],
        current := { nodes := [], head := none, data := [0] },
        last_change := 2002, editing := true, edited := false, current_index := 1 }).1 rfl).1

/-- C12: for every controller state whose active sequence (the default sequence
if `editing` or if `edited` is false, otherwise the user sequence) has a
current value `v`: on a qualifying tick `step()` succeeds, sets `current_index`
to `v` (as `uint32_t`), leaves exactly the output at that index lit when it is
below 3, advances the active sequence by one position, sets `last_change` to
`now` and leaves the other sequence, `editing` and `edited` unchanged; on a
tick that does not qualify `step()` changes neither the state nor the
outputs. -/
theorem step_plays_active_sequence (self : StateController) (now : Nat) (OUTPUTS : List Bool)
    (v : Int) (hO : OUTPUTS.length = N_OUTPUTS) (hv : self.sequence.get_data = Except.ok v) :
    self.sequence
      = (if self.editing then self.waiting
         else if self.edited then self.current else self.waiting) ∧
    (qualifies self.last_change now →
      ∃ st, self.step now OUTPUTS = Except.ok st ∧
        st.1.current_index = toUInt32 v ∧
        (toUInt32 v < 3 → st.2 = [false, false, false].set (toUInt32 v) true) ∧
        st.1.last_change = now ∧
        st.1.editing = self.editing ∧ st.1.edited = self.edited ∧
        (self.uses_current = true →
          st.1.current = self.current.step ∧ st.1.waiting = self.waiting) ∧
        (self.uses_current = false →
          st.1.waiting = self.waiting.step ∧ st.1.current = self.current)) ∧
    (¬ qualifies self.last_change now → self.step now OUTPUTS = Except.ok (self, OUTPUTS)) := by
  refine ⟨?_, ?_, step_not_qualifying self now OUTPUTS⟩
  · unfold StateController.sequence StateController.uses_current
    cases self.editing <;> cases self.edited <;> rfl
  · intro hq
    refine ⟨_, step_qualifying self now OUTPUTS v hq hv, ?_, ?_, rfl, ?_, ?_, ?_, ?_⟩
    · exact set_sequence_current_index _ _
    · intro hlt
      have hO3 : OUTPUTS.length = 3 := hO
      show litOutputs OUTPUTS v = _
      unfold litOutputs
      rw [map_false_of_length_three OUTPUTS hO, hO3, if_pos hlt]
    · exact set_sequence_editing _ _
    · exact set_sequence_edited _ _
    · intro hu
      have hu2 : ({ self with current_index := toUInt32 v } : StateController).uses_current
          = true := hu
      have hseq : self.sequence = self.current := by
        unfold StateController.sequence
        rw [hu]
        rfl
      show (StateController.set_sequence _ _).current = _ ∧
        (StateController.set_sequence _ _).waiting = _
      rw [set_sequence_uses_current _ _ hu2, hseq]
      exact ⟨rfl, rfl⟩
    · intro hu
      have hu2 : ({ self with current_index := toUInt32 v } : StateController).uses_current
          = false := hu
      have hseq : self.sequence = self.waiting := by
        unfold StateController.sequence
        rw [hu]
        rfl
      show (StateController.set_sequence _ _).waiting = _ ∧
        (StateController.set_sequence _ _).current = _
      rw [set_sequence_uses_waiting _ _ hu2, hseq]
      exact ⟨rfl, rfl⟩

/-- Witness of C12: the first qualifying tick of the initial controller, which
reads 0 from the default sequence. -/
theorem step_plays_active_sequence_witness :
    ∃ st, StateController.init.step 1001 OUTPUTS_init = Except.ok st ∧
      st.1.current_index = toUInt32 0 ∧
      (toUInt32 0 < 3 → st.2 = [false, false, false].set (toUInt32 0) true) ∧
      st.1.last_change = 1001 ∧
      st.1.editing = StateController.init.editing ∧ st.1.edited = StateController.init.edited ∧
      (StateController.init.uses_current = true →
        st.1.current = StateController.init.current.step ∧
        st.1.waiting = StateController.init.waiting) ∧
      (StateController.init.uses_current = false →
        st.1.waiting = StateController.init.waiting.step ∧
        st.1.current = StateController.init.current) :=
  (step_plays_active_sequence StateController.init 1001 OUTPUTS_init 0 rfl (by decide)).2.1
    (by decide)

/-- C13: `convert()` with an empty pending list leaves every sequence unchanged,
and `step()` on a sequence whose `head` is unset leaves it unchanged; so on a
sequence that was never closed from a non-empty list both are no-ops, however
often they are called, and the current position stays unset. -/
theorem convert_empty_and_step_unset_are_noops (s : LinkedSequence) :
    (s.data = [] → s.convert = s) ∧
    (s.head = none → s.step = s ∧ ∀ k, s.steps k = s) ∧
    (s.data = [] → s.head = none →
      s.convert.head = none ∧ s.step.head = none ∧ s.convert.step.convert = s) := by
  have hc : s.data = [] → s.convert = s := by
    intro h
    unfold LinkedSequence.convert
    rw [h]
    rfl
  have hst : s.head = none → s.step = s := by
    intro h
    unfold LinkedSequence.step
    rw [h]
  refine ⟨hc, ?_, ?_⟩
  · intro h
    refine ⟨hst h, ?_⟩
    intro k
    induction k with
    | zero => rfl
    | succ k ih => rw [LinkedSequence.steps, hst h, ih]
  · intro hd hh
    rw [hc hd, hst hh, hc hd]
    exact ⟨hh, hh, rfl⟩

/-- Witness of C13: the freshly constructed sequence `LinkedSequence()`. -/
theorem convert_empty_and_step_unset_are_noops_witness :
    LinkedSequence.empty.convert = LinkedSequence.empty ∧
    LinkedSequence.empty.step = LinkedSequence.empty ∧
    LinkedSequence.empty.convert.head = none :=
  ⟨(convert_empty_and_step_unset_are_noops LinkedSequence.empty).1 rfl,
   ((convert_empty_and_step_unset_are_noops LinkedSequence.empty).2.1 rfl).1,
   ((convert_empty_and_step_unset_are_noops LinkedSequence.empty).2.2 rfl rfl).1⟩

/-- C14: in every classifier state, reachable or not, and for every clock
value: a `get_event()` call that sees a release (the button was down, the
debounced state is up) returns `DOUBLE_PRESS` and clears `double_pending` when
`double_pending` was already true, and returns `NO_PRESS` and sets
`double_pending` when it was false; such a call never returns `SINGLE_PRESS`,
and a call that returns `SINGLE_PRESS` saw no transition: the button was
already up with `double_pending` set by an earlier call. -/
theorem release_tick_never_yields_single (em : EventManager) (now : Nat) :
    (em.button_down = true → em.double_pending = true →
      em.get_event now false
        = (EventType.DOUBLE_PRESS,
           { em with button_down := false, button_up_time := now, double_pending := false })) ∧
    (em.button_down = true → em.double_pending = false →
      em.get_event now false
        = (EventType.NO_PRESS,
           { em with button_down := false, button_up_time := now, double_pending := true })) ∧
    (em.button_down = true → (em.get_event now false).1 ≠ EventType.SINGLE_PRESS) ∧
    (∀ state : Bool, (em.get_event now state).1 = EventType.SINGLE_PRESS →
      em.button_down = false ∧ state = false ∧ em.double_pending = true ∧
      DOUBLE_PRESS_TIMEOUT < sub64 now em.button_up_time) := by
  obtain ⟨dt, ut, dp, bd⟩ := em
  refine ⟨?_, ?_, ?_, ?_⟩
  · intro h1 h2
    simp only at h1 h2
    subst h1 h2
    exact get_event_second_release dt ut now
  · intro h1 h2
    simp only at h1 h2
    subst h1 h2
    exact get_event_first_release dt ut now
  · intro h1
    simp only at h1
    subst h1
    cases dp
    · rw [get_event_first_release]
      simp
    · rw [get_event_second_release]
      simp
  · intro state h
    cases bd <;> cases state <;> cases dp
    · rw [get_event_idle] at h
      exact absurd h (by simp)
    · by_cases ht : DOUBLE_PRESS_TIMEOUT < sub64 now ut
      · exact ⟨rfl, rfl, rfl, ht⟩
      · rw [get_event_waiting dt ut now ht] at h
        exact absurd h (by simp)
    · rw [get_event_press] at h
      exact absurd h (by simp)
    · rw [get_event_press] at h
      exact absurd h (by simp)
    · rw [get_event_first_release] at h
      exact absurd h (by simp)
    · rw [get_event_second_release] at h
      exact absurd h (by simp)
    · rw [get_event_hold] at h
      exact absurd h (by simp)
    · rw [get_event_hold] at h
      exact absurd h (by simp)

/-- Witness of C14: the button has been released once at 30 and pressed again
at 50; the release seen at 1000 returns `DOUBLE_PRESS`, although more than
`DOUBLE_PRESS_TIMEOUT` has passed since 30. -/
theorem release_tick_never_yields_single_witness :
    EventManager.get_event ⟨50, 30, true, true⟩ 1000 false
      = (EventType.DOUBLE_PRESS, ⟨50, 1000, false, false⟩) :=
  (release_tick_never_yields_single ⟨50, 30, true, true⟩ 1000).1 rfl rfl

/-! ## Claim C15: indices stay in range -/

theorem get_data_mem (s : LinkedSequence) (v : Int) (h : s.get_data = Except.ok v) :
    ∃ n ∈ s.nodes, n.value = v := by
  unfold LinkedSequence.get_data at h
  cases hh : s.head with
  | none => rw [hh] at h; cases h
  | some a =>
    rw [hh] at h
    simp only at h
    cases hn : s.nodes[a]? with
    | none => rw [hn] at h; cases h
    | some n =>
      rw [hn] at h
      simp only [Except.ok.injEq] at h
      exact ⟨n, List.getElem?_mem hn, h⟩

theorem step_nodes (s : LinkedSequence) : s.step.nodes = s.nodes ∧ s.step.data = s.data := by
  unfold LinkedSequence.step
  cases s.head <;> exact ⟨rfl, rfl⟩

theorem steps_nodes (k : Nat) : ∀ s : LinkedSequence,
    (s.steps k).nodes = s.nodes ∧ (s.steps k).data = s.data := by
  induction k with
  | zero => intro s; exact ⟨rfl, rfl⟩
  | succ k ih =>
    intro s
    rw [LinkedSequence.steps, (ih s.step).1, (ih s.step).2]
    exact step_nodes s

theorem step_values_in_range (s : LinkedSequence) (h : s.values_in_range) :
    s.step.values_in_range := by
  unfold LinkedSequence.values_in_range at *
  rw [(step_nodes s).1, (step_nodes s).2]
  exact h

theorem add_move_values_in_range (s : LinkedSequence) (v : Int) (h : s.values_in_range)
    (hv : 0 ≤ v ∧ v < 3) : (s.add_move v).values_in_range := by
  unfold LinkedSequence.values_in_range at *
  refine ⟨?_, h.2⟩
  intro x hx
  rcases List.mem_append.mp hx with hx | hx
  · exact h.1 x hx
  · rw [List.mem_singleton.mp hx]
    exact hv

theorem convert_values_in_range (s : LinkedSequence) (h : s.values_in_range) :
    s.convert.values_in_range := by
  by_cases hd : s.data = []
  · have : s.convert = s := by
      unfold LinkedSequence.convert
      rw [hd]
      rfl
    rw [this]
    exact h
  · rw [convert_eq s hd]
    unfold LinkedSequence.values_in_range at *
    refine ⟨fun v hv => absurd hv (List.not_mem_nil v), ?_⟩
    intro n hn
    rcases List.mem_append.mp hn with hn | hn
    · exact h.2 n hn
    · unfold cycleNodes at hn
      obtain ⟨i, hi, rfl⟩ := List.mem_map.mp hn
      have hi2 : i < s.data.length := List.mem_range.mp hi
      have hmem : s.data.getD i 0 ∈ s.data := by
        rw [List.getD_eq_getElem?_getD, List.getElem?_eq_getElem hi2]
        exact List.getElem_mem hi2
      exact h.1 _ hmem

theorem toUInt32_of_in_range (v : Int) (h : 0 ≤ v ∧ v < 3) : toUInt32 v < N_OUTPUTS := by
  unfold toUInt32 N_OUTPUTS
  have : v % 2 ^ 32 = v := Int.emod_eq_of_lt h.1 (by omega)
  rw [this]
  omega

theorem switch_editing_indices_in_range (s : StateController) (h : s.indices_in_range) :
    s.switch_editing.indices_in_range := by
  unfold StateController.indices_in_range at *
  cases he : s.editing
  · have : s.switch_editing = { s with editing := true } := by
      unfold StateController.switch_editing
      rw [he]
      rfl
    rw [this]
    exact h
  · have : s.switch_editing
        = { s with editing := false, current := s.current.convert, edited := true } := by
      unfold StateController.switch_editing
      rw [he]
      rfl
    rw [this]
    exact ⟨h.1, h.2.1, convert_values_in_range _ h.2.2⟩

theorem select_indices_in_range (s : StateController) (h : s.indices_in_range) :
    s.select.indices_in_range := by
  unfold StateController.indices_in_range at *
  cases he : s.editing
  · have : s.select = s := by
      unfold StateController.select
      rw [he]
      rfl
    rw [this]
    exact h
  · have : s.select = { s with current := s.current.add_move (toInt32 s.current_index) } := by
      unfold StateController.select
      rw [he]
      rfl
    rw [this]
    have hci : s.current_index < 3 := h.1
    refine ⟨h.1, h.2.1, add_move_values_in_range _ _ h.2.2 ?_⟩
    rw [toInt32_of_lt _ (by omega)]
    omega

theorem sequence_values_in_range (s : StateController) (h : s.indices_in_range) :
    s.sequence.values_in_range := by
  unfold StateController.sequence
  cases s.uses_current
  · exact h.2.1
  · exact h.2.2

theorem read_in_range (s : StateController) (h : s.indices_in_range) (v : Int)
    (hv : s.sequence.get_data = Except.ok v) : 0 ≤ v ∧ v < 3 := by
  obtain ⟨n, hn, rfl⟩ := get_data_mem _ _ hv
  exact (sequence_values_in_range s h).2 n hn

theorem step_indices_in_range (s : StateController) (now : Nat) (OUTPUTS : List Bool)
    (st : StateController × List Bool) (hst : s.step now OUTPUTS = Except.ok st)
    (h : s.indices_in_range) : st.1.indices_in_range := by
  by_cases hq : qualifies s.last_change now
  · cases hv : s.sequence.get_data with
    | error e =>
      rw [step_fault s now OUTPUTS e hq hv] at hst
      cases hst
    | ok v =>
      rw [step_qualifying s now OUTPUTS v hq hv] at hst
      injection hst with hst
      subst hst
      have hr := read_in_range s h v hv
      have hseq := step_values_in_range _ (sequence_values_in_range s h)
      cases hu : s.uses_current
      · have hu2 : ({ s with current_index := toUInt32 v } : StateController).uses_current
            = false := hu
        rw [set_sequence_uses_waiting _ _ hu2]
        exact ⟨toUInt32_of_in_range v hr, hseq, h.2.2⟩
      · have hu2 : ({ s with current_index := toUInt32 v } : StateController).uses_current
            = true := hu
        rw [set_sequence_uses_current _ _ hu2]
        exact ⟨toUInt32_of_in_range v hr, h.2.1, hseq⟩
  · rw [step_not_qualifying s now OUTPUTS hq] at hst
    injection hst with hst
    subst hst
    exact h

theorem runOps_indices_in_range (ops : List Op) :
    ∀ st st1 : StateController × List Bool, runOps ops st = Except.ok st1 →
      st.1.indices_in_range → st1.1.indices_in_range := by
  induction ops with
  | nil =>
    intro st st1 h hi
    rw [runOps_nil] at h
    injection h with h
    subst h
    exact hi
  | cons op ops ih =>
    intro st st1 h hi
    obtain ⟨s, O⟩ := st
    cases op with
    | double =>
      rw [runOps_double] at h
      exact ih _ _ h (switch_editing_indices_in_range s hi)
    | single =>
      rw [runOps_single] at h
      exact ih _ _ h (select_indices_in_range s hi)
    | tick now =>
      cases hs : s.step now O with
      | error e =>
        rw [runOps_tick_fault now ops s O e hs] at h
        cases h
      | ok st2 =>
        rw [runOps_tick now ops s O st2 hs] at h
        exact ih _ _ h (step_indices_in_range s now O st2 hs hi)

theorem init_indices_in_range : StateController.init.indices_in_range := by
  unfold StateController.indices_in_range LinkedSequence.values_in_range
  refine ⟨by decide, ⟨by decide, by decide⟩, ⟨by decide, by decide⟩⟩

/-- C15: in every controller state reached from the initial state by Double
events, Single events and ticks (all reads defined, that is the run does not
fault), `current_index` is below 3 and every value held by the user sequence,
in its pending list, in its nodes and at every position of its cycle, is in
`[0, 3)`; so is every value held by the default sequence, hence the value read
by the next tick satisfies the guard of `step()` and the out-of-range branch is
not taken. -/
theorem reachable_indices_in_range (ops : List Op) (st : StateController × List Bool)
    (h : runOps ops (StateController.init, OUTPUTS_init) = Except.ok st) :
    st.1.current_index < 3 ∧
    (∀ v ∈ st.1.current.data, 0 ≤ v ∧ v < 3) ∧
    (∀ n ∈ st.1.current.nodes, 0 ≤ n.value ∧ n.value < 3) ∧
    (∀ k v, (st.1.current.steps k).get_data = Except.ok v → 0 ≤ v ∧ v < 3) ∧
    (∀ v, st.1.sequence.get_data = Except.ok v → 0 ≤ v ∧ v < 3 ∧ toUInt32 v < N_OUTPUTS) := by
  have hi := runOps_indices_in_range ops _ st h init_indices_in_range
  refine ⟨hi.1, hi.2.2.1, hi.2.2.2, ?_, ?_⟩
  · intro k v hv
    obtain ⟨n, hn, rfl⟩ := get_data_mem _ _ hv
    rw [(steps_nodes k st.1.current).1] at hn
    exact hi.2.2.2 n hn
  · intro v hv
    have hr := read_in_range st.1 hi v hv
    exact ⟨hr.1, hr.2, toUInt32_of_in_range v hr⟩

/-- Witness of C15: the state after the edit Double, tick, Single, tick,
Single, Double and one playback tick. -/
theorem reachable_indices_in_range_witness :
    ∃ st, runOps [Op.double, Op.tick 1001, Op.single, Op.tick 2002, Op.single, Op.double,
        Op.tick 3003] (StateController.init, OUTPUTS_init) = Except.ok st ∧
      st.1.current_index < 3 ∧ (∀ n ∈ st.1.current.nodes, 0 ≤ n.value ∧ n.value < 3) :=
  ⟨_, rfl,
    (reachable_indices_in_range [Op.double, Op.tick 1001, Op.single, Op.tick 2002, Op.single,
      Op.double, Op.tick 3003] _ rfl).1,
    (reachable_indices_in_range [Op.double, Op.tick 1001, Op.single, Op.tick 2002, Op.single,
      Op.double, Op.tick 3003] _ rfl).2.2.1⟩

/-! ## Claims C17 and C18: what the reader and the classifier do not remember -/

/-- C17: `get_state()` is a function of the two raw samples, the clock value
and the timestamp only (no earlier result enters): it returns the second
sample when `now - last > 35`, computed modulo `2^64`, and the first sample
otherwise; it sets the timestamp to `now` exactly when `now - last > 35` and
the two samples differ; whenever both samples agree the result is that raw
value, whatever the elapsed time. -/
theorem get_state_is_memoryless (first second : Bool) (now last : Nat) :
    ButtonState.get_state first second now last
      = (if DEBOUNCE_TIME < sub64 now last then second else first,
         if DEBOUNCE_TIME < sub64 now last ∧ first ≠ second then now else last) ∧
    (first = second → (ButtonState.get_state first second now last).1 = second) ∧
    (now < 2 ^ 64 → last < 2 ^ 64 → (sub64 now last : Int) = ((now : Int) - (last : Int)) % 2 ^ 64) := by
  refine ⟨?_, ?_, ?_⟩
  · unfold ButtonState.get_state
    by_cases h : DEBOUNCE_TIME < sub64 now last <;>
      cases first <;> cases second <;> simp [h]
  · intro h
    subst h
    unfold ButtonState.get_state
    by_cases h : DEBOUNCE_TIME < sub64 now last <;> simp [h]
  · intro h1 h2
    unfold sub64
    norm_num at h1 h2 ⊢
    omega

/-- C18: the double-press window is only checked while the button is up. In
every trace made of polls with the button up, a press, a release first seen at
`t1`, polls with the button up none of which has `now - t1 > 300`, a second
press held for any number of polls at any clock values and a release at any
clock value `t2`, every call before the last returns `NO_PRESS` (no
`SINGLE_PRESS` while the button is held) and the last one returns
`DOUBLE_PRESS`, also when `t2 - t1` exceeds `DOUBLE_PRESS_TIMEOUT`. -/
theorem held_second_press_still_yields_double (ups0 downs1 ups1 downs2 : List Nat)
    (t1 t2 : Nat) (hd1 : downs1 ≠ []) (hd2 : downs2 ≠ [])
    (hwait : ∀ t ∈ ups1, ¬ DOUBLE_PRESS_TIMEOUT < sub64 t t1) :
    EventManager.run EventManager.init
        (pollsOf ups0 false ++ (pollsOf downs1 true ++ (pollsOf (t1 :: ups1) false ++
          (pollsOf downs2 true ++ pollsOf [t2] false))))
      = List.replicate ups0.length EventType.NO_PRESS ++
        (List.replicate downs1.length EventType.NO_PRESS ++
          (EventType.NO_PRESS :: (List.replicate ups1.length EventType.NO_PRESS ++
            (List.replicate downs2.length EventType.NO_PRESS ++ [EventType.DOUBLE_PRESS])))) := by
  obtain ⟨d1, ds1, rfl⟩ := List.exists_cons_of_ne_nil hd1
  obtain ⟨d2, ds2, rfl⟩ := List.exists_cons_of_ne_nil hd2
  have hinit : EventManager.init = ⟨0, 0, false, false⟩ := rfl
  rw [hinit, run_append, (run_idle 0 0 ups0).1, (run_idle 0 0 ups0).2,
    run_append, (run_press 0 0 false d1 ds1).1, (run_press 0 0 false d1 ds1).2,
    pollsOf_cons t1, List.cons_append, run_cons, get_event_first_release,
    run_append, (run_waiting d1 t1 ups1 hwait).1, (run_waiting d1 t1 ups1 hwait).2,
    run_append, (run_press d1 t1 true d2 ds2).1, (run_press d1 t1 true d2 ds2).2,
    pollsOf_cons t2, run_cons, get_event_second_release]
  rfl

/-- Witness of C18: release at 30, second press held from 50 to 1000, release
at 5000, far more than 300 ms after the first release. -/
theorem held_second_press_still_yields_double_witness :
    EventManager.run EventManager.init
        (pollsOf [0] false ++ (pollsOf [10] true ++ (pollsOf (30 :: [40]) false ++
          (pollsOf [50, 500, 1000] true ++ pollsOf [5000] false))))
      = List.replicate [0].length EventType.NO_PRESS ++
        (List.replicate [10].length EventType.NO_PRESS ++
          (EventType.NO_PRESS :: (List.replicate [40].length EventType.NO_PRESS ++
            (List.replicate [50, 500, 1000].length EventType.NO_PRESS
              ++ [EventType.DOUBLE_PRESS])))) :=
  held_second_press_still_yields_double [0] [10] [40] [50, 500, 1000] 30 5000
    (by decide) (by decide) (by decide)

/-! ## Claim C19: editing again -/

theorem runOps_append_of_ok (a : List Op) :
    ∀ (b : List Op) (st m : StateController × List Bool),
      runOps a st = Except.ok m → runOps (a ++ b) st = runOps b m := by
  induction a with
  | nil =>
    intro b st m h
    rw [runOps_nil] at h
    injection h with h
    subst h
    rfl
  | cons op ops ih =>
    intro b st m h
    obtain ⟨s, O⟩ := st
    rw [List.cons_append]
    cases op with
    | double =>
      rw [runOps_double] at h ⊢
      exact ih b _ m h
    | single =>
      rw [runOps_single] at h ⊢
      exact ih b _ m h
    | tick now =>
      cases hs : s.step now O with
      | error e =>
        rw [runOps_tick_fault now _ s O e hs] at h
        cases h
      | ok st2 =>
        rw [runOps_tick now _ s O st2 hs] at h
        rw [runOps_tick now _ s O st2 hs]
        exact ih b _ m h

theorem recorded_single (ops : List Op) (s : StateController) (O : List Bool) :
    recorded (Op.single :: ops) (s, O)
      = toInt32 s.current_index :: recorded ops (s.select, O) := rfl

theorem recorded_tick (now : Nat) (ops : List Op) (s : StateController) (O : List Bool)
    (st1 : StateController × List Bool) (h : s.step now O = Except.ok st1) :
    recorded (Op.tick now :: ops) (s, O) = recorded ops st1 := by
  show (match s.step now O with
    | Except.error _ => []
    | Except.ok st1 => recorded ops st1) = recorded ops st1
  rw [h]

/-- While editing, `step()` reads the default sequence: it succeeds whenever
that sequence has a current value, keeps `editing` and the user sequence, and
leaves the default sequence where it is or one position further. -/
theorem step_while_editing (s : StateController) (now : Nat) (OUTPUTS : List Bool) (v : Int)
    (he : s.editing = true) (hv : s.waiting.get_data = Except.ok v) :
    ∃ st, s.step now OUTPUTS = Except.ok st ∧ st.1.editing = true ∧
      st.1.current = s.current ∧
      (st.1.waiting = s.waiting ∨ st.1.waiting = s.waiting.step) := by
  have hu : s.uses_current = false := by
    unfold StateController.uses_current
    rw [he]
    rfl
  have hseq : s.sequence = s.waiting := by
    unfold StateController.sequence
    rw [hu]
    rfl
  by_cases hq : qualifies s.last_change now
  · have hu2 : ({ s with current_index := toUInt32 v } : StateController).uses_current
        = false := hu
    refine ⟨_, step_qualifying s now OUTPUTS v hq (hseq ▸ hv), ?_, ?_, ?_⟩
    · show (StateController.set_sequence _ _).editing = true
      rw [set_sequence_uses_waiting _ _ hu2]
      exact he
    · show (StateController.set_sequence _ _).current = s.current
      rw [set_sequence_uses_waiting _ _ hu2]
    · right
      show (StateController.set_sequence _ _).waiting = s.waiting.step
      rw [set_sequence_uses_waiting _ _ hu2, hseq]
  · exact ⟨_, step_not_qualifying s now OUTPUTS hq, he, rfl, Or.inl rfl⟩

/-- While editing, a run of Single events and ticks over a closed default
sequence does not fault, keeps `editing`, the nodes and the head of the user
sequence, and appends to its pending list exactly the values delivered by the
Single events, one per event. -/
theorem edit_body_records (body : List Op) :
    ∀ (s : StateController) (O : List Bool),
      s.editing = true → (∀ op ∈ body, op ≠ Op.double) →
      (∀ k, ∃ v, (s.waiting.steps k).get_data = Except.ok v) →
      ∃ st, runOps body (s, O) = Except.ok st ∧
        st.1.editing = true ∧ st.1.current.nodes = s.current.nodes ∧
        st.1.current.head = s.current.head ∧
        st.1.current.data = s.current.data ++ recorded body (s, O) ∧
        (recorded body (s, O)).length = body.count Op.single := by
  induction body with
  | nil =>
    intro s O he _ _
    exact ⟨(s, O), rfl, he, rfl, rfl, (List.append_nil _).symm, rfl⟩
  | cons op ops ih =>
    intro s O he hb hw
    have hops : ∀ op ∈ ops, op ≠ Op.double := fun x hx => hb x (List.mem_cons_of_mem _ hx)
    cases op with
    | double => exact absurd rfl (hb Op.double (List.mem_cons_self _ _))
    | single =>
      have hsel : s.select = { s with current := s.current.add_move (toInt32 s.current_index) } := by
        unfold StateController.select
        rw [he]
        rfl
      have he2 : ({ s with current := s.current.add_move (toInt32 s.current_index) } :
          StateController).editing = true := he
      obtain ⟨st, hrun, h1, h2, h3, h4, h5⟩ := ih _ O he2 hops hw
      refine ⟨st, ?_, h1, h2, h3, ?_, ?_⟩
      · rw [runOps_single, hsel]
        exact hrun
      · rw [recorded_single, hsel, h4]
        show (s.current.data ++ [toInt32 s.current_index]) ++ _ = _
        rw [List.append_assoc]
        rfl
      · rw [recorded_single, hsel, List.length_cons, List.count_cons_self, h5]
    | tick now =>
      obtain ⟨v, hv⟩ := hw 0
      obtain ⟨st2, hs, he2, hc2, hw2⟩ := step_while_editing s now O v he hv
      have hw3 : ∀ k, ∃ v, (st2.1.waiting.steps k).get_data = Except.ok v := by
        intro k
        rcases hw2 with h | h
        · rw [h]
          exact hw k
        · rw [h]
          exact hw (k + 1)
      obtain ⟨st, hrun, h1, h2, h3, h4, h5⟩ := ih st2.1 st2.2 he2 hops hw3
      rw [hc2] at h2 h3 h4
      refine ⟨st, ?_, h1, h2, h3, ?_, ?_⟩
      · rw [runOps_tick now ops s O st2 hs]
        exact hrun
      · rw [recorded_tick now ops s O st2 hs]
        exact h4
      · rw [recorded_tick now ops s O st2 hs, h5, List.count_cons_of_ne (by simp)]

/-- C19: for a controller that is not editing, whose user sequence is closed
(pending list empty) and whose default sequence is a closed cycle (it has a
value at every position), the run Double, any Single events and ticks, Double
does not fault and ends not editing with `edited` set. With `l` the list of
the values delivered by the Single events, in order (the index displayed when
each arrives; one value per Single event): if `l` is empty the user sequence,
head included, is unchanged; if `l` is not empty the user cycle consists of
freshly allocated nodes only, starts at the first element of `l` and reads
`l[k mod length l]` after `k` steps, so the values of the earlier cycle are
discarded, not extended. -/
theorem reedit_replaces_user_cycle (s : StateController) (O : List Bool) (body : List Op)
    (he : s.editing = false) (hd : s.current.data = [])
    (hb : ∀ op ∈ body, op ≠ Op.double)
    (hw : ∀ k, ∃ v, (s.waiting.steps k).get_data = Except.ok v) :
    ∃ st1, runOps (Op.double :: (body ++ [Op.double])) (s, O) = Except.ok st1 ∧
      st1.1.editing = false ∧ st1.1.edited = true ∧
      (recorded body (s.switch_editing, O)).length = body.count Op.single ∧
      (recorded body (s.switch_editing, O) = [] → st1.1.current = s.current) ∧
      (recorded body (s.switch_editing, O) ≠ [] →
        st1.1.current
          = { nodes := s.current.nodes
                ++ cycleNodes s.current.nodes.length (recorded body (s.switch_editing, O)),
              head := some s.current.nodes.length, data := [] } ∧
        ∀ k, (st1.1.current.steps k).head
            = some (s.current.nodes.length
                + k % (recorded body (s.switch_editing, O)).length) ∧
          ∃ v, (recorded body (s.switch_editing, O))[k
                % (recorded body (s.switch_editing, O)).length]? = some v ∧
            (st1.1.current.steps k).get_data = Except.ok v) := by
  have hsw : s.switch_editing = { s with editing := true } := by
    unfold StateController.switch_editing
    rw [he]
    rfl
  rw [hsw]
  obtain ⟨m, hm, hme, hmn, hmh, hmd, hlen⟩ :=
    edit_body_records body { s with editing := true } O rfl hb hw
  generalize recorded body ({ s with editing := true }, O) = l at hmd hlen ⊢
  obtain ⟨ms, mO⟩ := m
  simp only at hme hmn hmh hmd
  rw [hd, List.nil_append] at hmd
  have hmc : ms.current = { nodes := s.current.nodes, head := s.current.head, data := l } := by
    cases hc : ms.current with
    | mk n h d =>
      rw [hc] at hmn hmh hmd
      simp only at hmn hmh hmd
      rw [hmn, hmh, hmd]
  have hsw2 : ms.switch_editing
      = { ms with editing := false, current := ms.current.convert, edited := true } := by
    unfold StateController.switch_editing
    rw [hme]
    rfl
  have hrun : runOps (Op.double :: (body ++ [Op.double])) (s, O)
      = Except.ok ({ ms with editing := false, current := ms.current.convert, edited := true },
          mO) := by
    rw [runOps_double, hsw, runOps_append_of_ok body [Op.double] _ _ hm, runOps_double,
      runOps_nil, hsw2]
  refine ⟨_, hrun, rfl, rfl, hlen, ?_, ?_⟩
  · intro hnil
    show ms.current.convert = s.current
    rw [hmc, hnil]
    have : s.current = { nodes := s.current.nodes, head := s.current.head, data := [] } := by
      cases hc : s.current with
      | mk n h d =>
        rw [hc] at hd
        simp only at hd
        rw [hd]
    rw [this]
    rfl
  · intro hne
    have hpos : 0 < l.length := List.length_pos.mpr hne
    have hconv : ms.current.convert
        = { nodes := s.current.nodes ++ cycleNodes s.current.nodes.length l,
            head := some (s.current.nodes.length + 0), data := [] } := by
      rw [hmc, convert_eq _ hne]
      rfl
    refine ⟨hconv, ?_⟩
    intro k
    show (LinkedSequence.steps k ms.current.convert).head = _ ∧
      ∃ v, l[k % l.length]? = some v ∧
        (LinkedSequence.steps k ms.current.convert).get_data = Except.ok v
    rw [hconv, steps_cycle s.current.nodes l [] k 0 hpos, Nat.zero_add]
    refine ⟨rfl, l.get ⟨k % l.length, Nat.mod_lt _ hpos⟩, ?_, ?_⟩
    · exact List.getElem?_eq_getElem (Nat.mod_lt _ hpos)
    · exact get_data_cycle s.current.nodes l [] (k % l.length) (Nat.mod_lt _ hpos)

theorem closed_cycle_has_values (h0 : List Node) (l d : List Int) (p : Nat)
    (hp : p < l.length) :
    ∀ k, ∃ v, (LinkedSequence.steps k
        { nodes := h0 ++ cycleNodes h0.length l, head := some (h0.length + p),
          data := d }).get_data = Except.ok v := by
  intro k
  have hpos : 0 < l.length := by omega
  rw [steps_cycle h0 l d k p hp]
  exact ⟨_, get_data_cycle h0 l d ((p + k) % l.length) (Nat.mod_lt _ hpos)⟩

/-- Witness of C19: the controller plays the user cycle `[0, 1]`; in the run
Double, tick at 3003 (the default sequence displays 2), Single, Double the
Single event delivers 2, and the user cycle becomes the single fresh node
holding 2. -/
theorem reedit_replaces_user_cycle_witness :
    ∃ st1, runOps (Op.double :: ([Op.tick 3003, Op.single] ++ [Op.double]))
        ({ waiting := { nodes := [⟨some 1, 0⟩, ⟨some 2, 1⟩, ⟨some 0, 2⟩], head := some 2,
                        data := [] },
           current := { nodes := [⟨some 1, 0⟩, ⟨some 0, 1⟩], head := some 0, data := [] },
           last_change := 2002, editing := false, edited := true, current_index := 1 },
         [false, true, false]) = Except.ok st1 ∧
      st1.1.editing = false ∧ st1.1.edited = true ∧
      recorded [Op.tick 3003, Op.single]
        (StateController.switch_editing
          { waiting := { nodes := [⟨some 1, 0⟩, ⟨some 2, 1⟩, ⟨some 0, 2⟩], head := some 2,
                         data := [] },
            current := { nodes := [⟨some 1, 0⟩, ⟨some 0, 1⟩], head := some 0, data := [] },
            last_change := 2002, editing := false, edited := true, current_index := 1 },
         [false, true, false]) = [2] ∧
      st1.1.current = { nodes := [⟨some 1, 0⟩, ⟨some 0, 1⟩, ⟨some 2, 2⟩], head := some 2,
                        data := [] } := by
  have hr : recorded [Op.tick 3003, Op.single]
      (StateController.switch_editing
        { waiting := { nodes := [⟨some 1, 0⟩, ⟨some 2, 1⟩, ⟨some 0, 2⟩], head := some 2,
                       data := [] },
          current := { nodes := [⟨some 1, 0⟩, ⟨some 0, 1⟩], head := some 0, data := [] },
          last_change := 2002, editing := false, edited := true, current_index := 1 },
       [false, true, false]) = [2] := by decide
  obtain ⟨st1, h1, h2, h3, _, _, h6⟩ := reedit_replaces_user_cycle
    { waiting := { nodes := [⟨some 1, 0⟩, ⟨some 2, 1⟩, ⟨some 0, 2⟩], head := some 2,
                   data := [] },
      current := { nodes := [⟨some 1, 0⟩, ⟨some 0, 1⟩], head := some 0, data := [] },
      last_change := 2002, editing := false, edited := true, current_index := 1 }
    [false, true, false] [Op.tick 3003, Op.single] rfl rfl (by decide)
    (closed_cycle_has_values [] [0, 1, 2] [] 2 (by decide))
  refine ⟨st1, h1, h2, h3, hr, ?_⟩
  rw [(h6 (by rw [hr]; exact List.cons_ne_nil _ _)).1, hr]
  decide

end LinkedLeds

namespace TemperatureI2c

/-! ## Claim C16: the history buffer keeps the last 60 readings -/

theorem push_keeps_last_sixty {α : Type} (rs : List α) (t : α) :
    (if (rs.drop (rs.length - 60) ++ [t]).length > 60
      then (rs.drop (rs.length - 60) ++ [t]).tail
      else rs.drop (rs.length - 60) ++ [t])
      = (rs ++ [t]).drop ((rs ++ [t]).length - 60) := by
  have hlen : (rs.drop (rs.length - 60) ++ [t]).length = min rs.length 60 + 1 := by
    rw [List.length_append, List.length_drop, List.length_singleton]
    omega
  by_cases h : rs.length < 60
  · have h0 : rs.length - 60 = 0 := by omega
    have h1 : (rs ++ [t]).length - 60 = 0 := by
      rw [List.length_append, List.length_singleton]
      omega
    rw [if_neg (by rw [hlen]; omega), h0, h1]
    rfl
  · have h1 : (rs ++ [t]).length - 60 = (rs.length - 60) + 1 := by
      rw [List.length_append, List.length_singleton]
      omega
    rw [if_pos (by rw [hlen]; omega), h1, ← List.drop_one,
      List.drop_append_of_le_length (by rw [List.length_drop]; omega),
      List.drop_append_of_le_length (by omega), List.drop_drop]

theorem loop_body_reading {α : Type} (temp : α) (s : Poller α) (h : s.interrupted = false) :
    (loop_body temp s).temp_values
      = (if (s.temp_values ++ [temp]).length > 60 then (s.temp_values ++ [temp]).tail
         else s.temp_values ++ [temp]) ∧
    (loop_body temp s).interrupted = false := by
  simp [loop_body, h]

theorem loop_body_interrupted {α : Type} (temp : α) (s : Poller α) (h : s.interrupted = true) :
    (loop_body temp s).temp_values = s.temp_values ∧
    (loop_body temp s).interrupted = true := by
  cases hs : s.sent_data <;> simp [loop_body, h, hs]

theorem run_keeps_last_sixty {α : Type} (its : List (Bool × α)) :
    ∀ (s : Poller α) (rs : List α), s.temp_values = rs.drop (rs.length - 60) →
      (run s its).temp_values
        = (rs ++ taken s.interrupted its).drop ((rs ++ taken s.interrupted its).length - 60) := by
  induction its with
  | nil =>
    intro s rs h
    simp only [run, taken, List.append_nil]
    exact h
  | cons it rest ih =>
    intro s rs h
    obtain ⟨irq, temp⟩ := it
    have hs1 : (if irq then interrupt s else s).interrupted = (s.interrupted || irq) := by
      cases irq <;> simp [interrupt]
    have hs2 : (if irq then interrupt s else s).temp_values = s.temp_values := by
      cases irq <;> rfl
    rw [run, taken]
    cases hi : (s.interrupted || irq)
    · have hl := loop_body_reading temp (if irq then interrupt s else s) (hs1.trans hi)
      have hb : (loop_body temp (if irq then interrupt s else s)).temp_values
          = (rs ++ [temp]).drop ((rs ++ [temp]).length - 60) := by
        rw [hl.1, hs2, h]
        exact push_keeps_last_sixty rs temp
      have := ih _ (rs ++ [temp]) hb
      rw [hl.2] at this
      rw [this]
      simp
    · have hl := loop_body_interrupted temp (if irq then interrupt s else s) (hs1.trans hi)
      have hb : (loop_body temp (if irq then interrupt s else s)).temp_values
          = rs.drop (rs.length - 60) := by
        rw [hl.1, hs2, h]
      have := ih _ rs hb
      rw [hl.2] at this
      rw [this]
      simp

/-- C16: after every iteration of the main loop (that is, for every sequence
of iterations run from the start of the loop) the history buffer `temp_values`
holds at most 60 readings, exactly `min n 60` of them, and they are the most
recent `min n 60` readings in the order they were taken, where `n` is the
number of readings taken so far. -/
theorem history_holds_last_sixty_readings {α : Type} (its : List (Bool × α)) :
    (run Poller.start its).temp_values.length ≤ 60 ∧
    (run Poller.start its).temp_values.length = min (taken false its).length 60 ∧
    (run Poller.start its).temp_values
      = (taken false its).drop ((taken false its).length - 60) := by
  have h := run_keeps_last_sixty its (Poller.start : Poller α) [] rfl
  rw [List.nil_append] at h
  have h2 : (taken (Poller.start : Poller α).interrupted its) = taken false its := rfl
  rw [h2] at h
  rw [h, List.length_drop]
  refine ⟨by omega, by omega, rfl⟩

/-- Witness of C16: 61 readings `0, 1, ..., 60` taken without interrupt; the
buffer holds the 60 readings `1, ..., 60`, the oldest one is dropped. -/
theorem history_holds_last_sixty_readings_witness :
    (run Poller.start ((List.range 61).map (fun i => (false, i)))).temp_values
      = (List.range 61).drop 1 :=
  (history_holds_last_sixty_readings ((List.range 61).map (fun i => (false, i)))).2.2.trans
    (by decide)

end TemperatureI2c
